import Mathlib

/-!
Verification development for the literature-tracking repository's weekly
selection engine (`03_weekly_picks.py`).

The paper store (SQLite table `papers`) is modelled as a `List Paper`;
columns that the schema allows to be NULL are `Option String`.  Python
`float` scores are modelled as rationals; `round(x, 2)` is modelled as
rounding `100 x` to the nearest integer.  Operations that can raise a
Python `TypeError` on a NULL field return `Option` (`none` = raise).
-/

namespace WeeklyPicks

/-- A row of the `papers` table (schema in `01_fetch.py:init_db`).
`paper_id` is `TEXT PRIMARY KEY`, `title` is `NOT NULL`; the remaining
text columns are nullable.  `relevant` and `picked` are the two status
integers, modelled as booleans. -/
structure Paper where
  paper_id : String
  title : Option String
  authors : Option String
  abstract : Option String
  journal : Option String
  url : Option String
  pub_date : Option String
  relevant : Bool
  picked : Bool
deriving Repr, DecidableEq

/-- Prefix test on characters: `isPre needle hay` holds when `needle` is a prefix of `hay`. -/
def isPre : List Char → List Char → Bool
  | [], _ => true
  | _ :: _, [] => false
  | a :: as, b :: bs => a = b && isPre as bs

/-- Substring test: `hasSub needle hay` holds when `needle` occurs as a
contiguous substring of `hay` — the model of Python's `needle in hay`. -/
def hasSub (needle : List Char) : List Char → Bool
  | [] => isPre needle []
  | c :: t => isPre needle (c :: t) || hasSub needle t

/-- Python `"NBER" in journal`. -/
def containsNBER (s : String) : Bool :=
  hasSub "NBER".data s.data

/-- The `TOP5` venue set of `03_weekly_picks.py`. -/
def TOP5 : List String :=
  ["American Economic Review",
   "Econometrica",
   "Journal of Political Economy",
   "Quarterly Journal of Economics",
   "Review of Economic Studies"]

/-- The `TOP_FIELD` venue set of `03_weekly_picks.py`. -/
def TOP_FIELD : List String :=
  ["Review of Economics and Statistics",
   "Journal of the European Economic Association",
   "AEJ: Applied Economics",
   "AEJ: Economic Policy",
   "AEJ: Microeconomics",
   "JPE Microeconomics"]

/-- The `FIELD_JOURNALS` venue set of `03_weekly_picks.py`. -/
def FIELD_JOURNALS : List String :=
  ["Journal of Labor Economics",
   "Journal of Public Economics",
   "Journal of Health Economics",
   "Journal of Human Resources",
   "RAND Journal of Economics",
   "Journal of Urban Economics",
   "Journal of Development Economics",
   "Journal of Econometrics",
   "Journal of Political Economy Microeconomics"]

/-- The `ELIGIBLE_SOURCES` union: the three tier sets plus the NBER
working-paper series and the Job Market Paper placeholder venue. -/
def ELIGIBLE_SOURCES : List String :=
  TOP5 ++ TOP_FIELD ++ FIELD_JOURNALS ++ ["NBER Working Paper", "Job Market Paper"]

/-- Function `_is_eligible(journal)` on a present (non-NULL) journal string:
`journal in ELIGIBLE_SOURCES or "NBER" in journal`. -/
def isEligibleStr (journal : String) : Bool :=
  journal ∈ ELIGIBLE_SOURCES || containsNBER journal

/-- Function `_is_eligible` as called by the engine: a NULL journal
raises a `TypeError` at `"NBER" in journal` (`none`). -/
def is_eligible : Option String → Option Bool
  | some j => some (isEligibleStr j)
  | none => none

/-- The boolean gate the selection pipeline applies to a paper; only
evaluated by the engine after it has established that no candidate has a
NULL journal (a NULL journal raises instead). -/
def eligB (p : Paper) : Bool :=
  (is_eligible p.journal).getD false

/-- Python `str.lower()`, character by character. -/
def lower (l : List Char) : List Char :=
  l.map Char.toLower

/-- Python `str.strip()`: drop whitespace from both ends. -/
def trimChars (l : List Char) : List Char :=
  ((l.dropWhile Char.isWhitespace).reverse.dropWhile Char.isWhitespace).reverse

/-- Function `_keyword_hits(text, keywords)`: the number of keywords whose
lower-cased form occurs in the lower-cased text. -/
def keyword_hits (text : List Char) (keywords : List String) : Nat :=
  (keywords.filter (fun kw => hasSub (lower kw.data) (lower text))).length

/-- Lookup `weights.get(key, default)`. -/
def wget (weights : List (String × ℚ)) (key : String) (dflt : ℚ) : ℚ :=
  match weights.find? (fun w => w.1 == key) with
  | some w => w.2
  | none => dflt

/-- Python `round(x, 2)` modelled on exact rationals: round `100 x` to
the nearest integer, ties to the even integer, and divide by 100. -/
def round2 (q : ℚ) : ℚ :=
  let x := q * 100
  let f : ℤ := ⌊x⌋
  let r : ℚ := x - f
  let n : ℤ :=
    if r < 1/2 then f
    else if (1 : ℚ)/2 < r then f + 1
    else if 2 ∣ f then f else f + 1
  (n : ℚ) / 100

/-- The `--- Journal tier ---` if-chain of `score_paper`, in the source's
branch order. -/
def venueTier (journal : String) (weights : List (String × ℚ)) : ℚ :=
  if journal ∈ TOP5 then wget weights "journal_top5" 30
  else if journal ∈ TOP_FIELD then wget weights "journal_top_field" 20
  else if journal = "Job Market Paper" then wget weights "jmp" 17
  else if journal ∈ FIELD_JOURNALS then wget weights "journal_field" 15
  else if containsNBER journal then wget weights "nber" 18
  else 0

/-- The engine's configuration, after the `cfg.get(..., default)` calls of
`pick_weekly_reading` have been applied (`num_papers` defaults to 7,
`min_score` to 20; missing keyword lists are empty lists). -/
structure PicksCfg where
  field_keywords : List (String × List String)
  structural_keywords : List String
  novel_data_keywords : List String
  novel_measurement_keywords : List String
  weights : List (String × ℚ)
  num_papers : Nat
  min_score : ℚ
deriving Repr, DecidableEq

/-- Function `score_paper(paper, cfg_picks, weights)`; `none` models the
`TypeError` raised when `title`, `abstract` or `journal` is NULL
(`paper["title"] + " " + paper["abstract"]` and `"NBER" in journal`
both raise on `None`). -/
def score_paper (paper : Paper) (cfg_picks : PicksCfg) (weights : List (String × ℚ)) :
    Option ℚ :=
  match paper.journal, paper.title, paper.abstract with
  | some journal, some title, some abstract =>
    let text := lower ((title ++ " " ++ abstract).data)
    let tier := venueTier journal weights
    let field_hits := (cfg_picks.field_keywords.map (fun fk => keyword_hits text fk.2)).sum
    let field_part : ℚ :=
      if 0 < field_hits then wget weights "field_match" 25 * ((min field_hits 5 : Nat) : ℚ) / 3 else 0
    let struct_hits := keyword_hits text cfg_picks.structural_keywords
    let struct_part : ℚ :=
      if 0 < struct_hits then wget weights "structural" 20 * ((min struct_hits 4 : Nat) : ℚ) / 2 else 0
    let data_hits := keyword_hits text cfg_picks.novel_data_keywords
    let data_part : ℚ :=
      if 0 < data_hits then wget weights "novel_data" 15 * ((min data_hits 4 : Nat) : ℚ) / 2 else 0
    let meas_hits := keyword_hits text cfg_picks.novel_measurement_keywords
    let meas_part : ℚ :=
      if 0 < meas_hits then wget weights "novel_measurement" 15 * ((min meas_hits 3 : Nat) : ℚ) / 2 else 0
    let rel_part : ℚ := if paper.relevant then wget weights "keyword_relevant" 10 else 0
    some (round2 (tier + field_part + struct_part + data_part + meas_part + rel_part))
  | _, _, _ => none

/-- The score the engine attaches as `p["_score"]`; the engine only reads
it after its NULL-field guard, where `score_paper` is `some`. -/
def scoreD (cfg : PicksCfg) (p : Paper) : ℚ :=
  (score_paper p cfg cfg.weights).getD 0

/-- Normalization of a title as the dedup step does it — the
deduplication step. -/
def title_norm (p : Paper) : List Char :=
  lower (trimChars (p.title.getD "").data)

/-- Function `get_unpicked_papers(conn)`: all rows with `picked = 0`. -/
def get_unpicked_papers (store : List Paper) : List Paper :=
  store.filter (fun p => !p.picked)

/-- The effect of one `UPDATE papers SET picked = 1 WHERE paper_id = ?`
batch (`mark_as_picked(conn, paper_ids)`) on a row. -/
def markOne (ids : List String) (p : Paper) : Paper :=
  if p.paper_id ∈ ids then { p with picked := true } else p

/-- Function `mark_as_picked(conn, paper_ids)`. -/
def mark_as_picked (store : List Paper) (ids : List String) : List Paper :=
  store.map (markOne ids)

/-- Insert into a descending-by-score list, after any equal scores:
the effect `list.sort(key=score, reverse=True)` (a stable sort) has on
the element orders we reason about. -/
def insDesc (x : Paper × ℚ) : List (Paper × ℚ) → List (Paper × ℚ)
  | [] => [x]
  | y :: ys => if y.2 < x.2 then x :: y :: ys else y :: insDesc x ys

/-- Stable descending sort by the attached score
(`papers.sort(key=lambda p: p["_score"], reverse=True)`). -/
def sortDesc (l : List (Paper × ℚ)) : List (Paper × ℚ) :=
  l.foldl (fun acc x => insDesc x acc) []

/-- The dedup loop of `pick_weekly_reading`: `seen` is the set of
normalized titles already kept. -/
def dedupAux : List (Paper × ℚ) → List (List Char) → List (Paper × ℚ)
  | [], _ => []
  | sp :: rest, seen =>
    if title_norm sp.1 ∈ seen then dedupAux rest seen
    else sp :: dedupAux rest (title_norm sp.1 :: seen)

/-- Deduplication loop: keep only the first entry per unique title. -/
def dedupTitles (l : List (Paper × ℚ)) : List (Paper × ℚ) :=
  dedupAux l []

/-- Filter keeping entries whose score is at least the threshold. -/
def aboveThreshold (m : ℚ) (l : List (Paper × ℚ)) : List (Paper × ℚ) :=
  l.filter (fun sp => decide (m ≤ sp.2))

/-- Filter keeping entries whose score is under the threshold. -/
def belowThreshold (m : ℚ) (l : List (Paper × ℚ)) : List (Paper × ℚ) :=
  l.filter (fun sp => decide (sp.2 < m))

/-- The candidate pool: `papers = get_unpicked_papers(conn)`. -/
def poolOf (store : List Paper) : List Paper :=
  get_unpicked_papers store

/-- Stage `ineligible`: pool papers failing the gate. -/
def ineligibleOf (store : List Paper) : List Paper :=
  (poolOf store).filter (fun p => !(eligB p))

/-- Stage overwriting `papers`: the pool papers passing the gate. -/
def gatedOf (store : List Paper) : List Paper :=
  (poolOf store).filter eligB

/-- The pool with `p["_score"]` attached (`p["_score"] = score_paper(...)`). -/
def scoredOf (cfg : PicksCfg) (store : List Paper) : List (Paper × ℚ) :=
  (gatedOf store).map (fun p => (p, scoreD cfg p))

/-- The scored pool after the stable descending sort. -/
def rankedOf (cfg : PicksCfg) (store : List Paper) : List (Paper × ℚ) :=
  sortDesc (scoredOf cfg store)

/-- Stage `unique`: the ranked pool after title deduplication. -/
def uniqueOf (cfg : PicksCfg) (store : List Paper) : List (Paper × ℚ) :=
  dedupTitles (rankedOf cfg store)

/-- Stage `below`: deduplicated candidates under the score threshold. -/
def belowOf (cfg : PicksCfg) (store : List Paper) : List (Paper × ℚ) :=
  belowThreshold cfg.min_score (uniqueOf cfg store)

/-- Stage `eligible`: deduplicated candidates at or above the score threshold. -/
def aboveOf (cfg : PicksCfg) (store : List Paper) : List (Paper × ℚ) :=
  aboveThreshold cfg.min_score (uniqueOf cfg store)

/-- Stage `selected`: the first `num_papers` survivors. -/
def selectedOf (cfg : PicksCfg) (store : List Paper) : List (Paper × ℚ) :=
  (aboveOf cfg store).take cfg.num_papers

/-- Stage `runners`: the next seven survivors after the selection. -/
def runnersOf (cfg : PicksCfg) (store : List Paper) : List (Paper × ℚ) :=
  ((aboveOf cfg store).drop cfg.num_papers).take 7

/-- The ids handed to the first `mark_as_picked` call (ineligible papers). -/
def inelIds (store : List Paper) : List String :=
  (ineligibleOf store).map (fun p => p.paper_id)

/-- The ids handed to the second `mark_as_picked` call (below threshold). -/
def belowIds (cfg : PicksCfg) (store : List Paper) : List String :=
  (belowOf cfg store).map (fun sp => sp.1.paper_id)

/-- The ids handed to the final `mark_as_picked` call (the selection). -/
def selIds (cfg : PicksCfg) (store : List Paper) : List String :=
  (selectedOf cfg store).map (fun sp => sp.1.paper_id)

/-- The store after the `if ineligible:` discard
(`mark_as_picked` is called only when the list is non-empty). -/
def store1Of (store : List Paper) : List Paper :=
  if (ineligibleOf store).isEmpty then store
  else mark_as_picked store (inelIds store)

/-- The store after the `if below:` discard. -/
def store2Of (cfg : PicksCfg) (store : List Paper) : List Paper :=
  if (belowOf cfg store).isEmpty then store1Of store
  else mark_as_picked (store1Of store) (belowIds cfg store)

/-- The store after the selection is marked. -/
def store3Of (cfg : PicksCfg) (store : List Paper) : List Paper :=
  mark_as_picked (store2Of cfg store) (selIds cfg store)

/-- The outputs of one engine run that the claims are about.  On the
three empty outcomes `note` is the exact markdown string returned; on a
successful run the full markdown report is presentation only and `note`
is `""`.  `remaining` is the `SELECT COUNT(*) ... WHERE picked = 0`
result, reported only on the successful path. -/
structure PickResult where
  note : String
  selected : List (Paper × ℚ)
  runners : List (Paper × ℚ)
  remaining : Option Nat
deriving Repr, DecidableEq

/-- Markdown returned on an empty pool. -/
def NO_NEW_MD : String := "# Weekly Reading List\n\nNo new papers this week.\n"

/-- Markdown returned when no paper passes the gate. -/
def NO_ELIGIBLE_MD : String := "# Weekly Reading List\n\nNo eligible papers this week.\n"

/-- Markdown returned when no paper reaches the score threshold. -/
def NO_ABOVE_MD : String :=
  "# Weekly Reading List\n\nNo papers above the relevance threshold this week.\n"

/-- Function `pick_weekly_reading()`: the engine pass.  Returns the store after
the pass's `mark_as_picked` writes, and `some` result, or `none` when
the pass raises a `TypeError` on a NULL `journal`, `title` or `abstract`
of a candidate (the store then reflects the writes committed before the
raise). -/
def pick_weekly_reading (cfg : PicksCfg) (store : List Paper) :
    List Paper × Option PickResult :=
  let papers := poolOf store
  if papers.isEmpty then
    (store, some ⟨NO_NEW_MD, [], [], none⟩)
  else if papers.any (fun p => p.journal.isNone) then
    (store, none)
  else if (gatedOf store).isEmpty then
    (store1Of store, some ⟨NO_ELIGIBLE_MD, [], [], none⟩)
  else if (gatedOf store).any (fun p => p.title.isNone || p.abstract.isNone) then
    (store1Of store, none)
  else if (aboveOf cfg store).isEmpty then
    (store2Of cfg store, some ⟨NO_ABOVE_MD, [], [], none⟩)
  else
    let store3 := store3Of cfg store
    let remaining := (store3.filter (fun p => !p.picked)).length
    (store3, some ⟨"", selectedOf cfg store, runnersOf cfg store, some remaining⟩)

/-- Every row of the store carrying the id `x` is marked picked. -/
def idPicked (store : List Paper) (x : String) : Prop :=
  ∀ p ∈ store, p.paper_id = x → p.picked = true

/-- One engine operation on the store: a `mark_as_picked` batch or a
full `pick_weekly_reading` pass. -/
inductive EngineOp : List Paper → List Paper → Prop
  | mark (s : List Paper) (ids : List String) : EngineOp s (mark_as_picked s ids)
  | run (s : List Paper) (cfg : PicksCfg) : EngineOp s (pick_weekly_reading cfg s).1

/-- Stores reachable from `s` by engine operations. -/
inductive Reach : List Paper → List Paper → Prop
  | refl (s : List Paper) : Reach s s
  | tail {s t u : List Paper} : Reach s t → EngineOp t u → Reach s u

/-- Modelled from the spec: the venue-tier bonus evaluated in the spec's
stated tier-priority order (top-tier, top-field, working-paper-series,
field-journal, distinguished-placeholder), for comparison with the
source's `venueTier` branch order. -/
def venueTierSpec (journal : String) (weights : List (String × ℚ)) : ℚ :=
  if journal ∈ TOP5 then wget weights "journal_top5" 30
  else if journal ∈ TOP_FIELD then wget weights "journal_top_field" 20
  else if containsNBER journal then wget weights "nber" 18
  else if journal ∈ FIELD_JOURNALS then wget weights "journal_field" 15
  else if journal = "Job Market Paper" then wget weights "jmp" 17
  else 0

/-- A configuration with empty keyword lists and default weights. -/
def cfgN1 : PicksCfg := ⟨[], [], [], [], [], 1, 20⟩

/-- Default configuration (`num_papers = 7`, `min_score = 20`). -/
def cfgN7 : PicksCfg := ⟨[], [], [], [], [], 7, 20⟩

/-- Scenario-B configuration (`num_papers = 7`, `min_score = 0`). -/
def cfg70 : PicksCfg := ⟨[], [], [], [], [], 7, 0⟩

/-- A minimal unpicked top-5-venue row used as a concrete input. -/
def samplePaper (i t : String) : Paper :=
  ⟨i, some t, some "", some "", some "Econometrica", none, none, false, false⟩

/-- Two same-title rows; `dupHi` is keyword-relevant and outscores `dupLo`. -/
def dupHi : Paper :=
  ⟨"a", some "Same Title", some "", some "", some "Econometrica", none, none, true, false⟩

/-- See `dupHi`. -/
def dupLo : Paper :=
  ⟨"b", some "Same Title", some "", some "", some "Econometrica", none, none, false, false⟩

/-- An already-picked row. -/
def pickedPaper : Paper :=
  ⟨"z", some "Z", some "", some "", some "Econometrica", none, none, false, true⟩

/-- A candidate whose `abstract` column is NULL. -/
def pNullAbstract : Paper :=
  ⟨"n", some "T", some "", none, some "Econometrica", none, none, false, false⟩

/-- A candidate whose `journal` column is NULL. -/
def pNullJournal : Paper :=
  ⟨"j", some "T", some "", some "", none, none, none, false, false⟩

/-- Ten unpicked, eligible, distinct-title rows (Scenario B's pool). -/
def tenStore : List Paper :=
  [samplePaper "p1" "t1", samplePaper "p2" "t2", samplePaper "p3" "t3",
   samplePaper "p4" "t4", samplePaper "p5" "t5", samplePaper "p6" "t6",
   samplePaper "p7" "t7", samplePaper "p8" "t8", samplePaper "p9" "t9",
   samplePaper "p10" "t10"]

theorem markOne_paper_id (ids : List String) (p : Paper) :
    (markOne ids p).paper_id = p.paper_id := by
  unfold markOne; split <;> rfl

theorem markOne_of_not_mem {ids : List String} {p : Paper} (h : p.paper_id ∉ ids) :
    markOne ids p = p := by
  unfold markOne; exact if_neg h

theorem markOne_picked_of_mem {ids : List String} {p : Paper} (h : p.paper_id ∈ ids) :
    (markOne ids p).picked = true := by
  unfold markOne; rw [if_pos h]

theorem markOne_picked_mono {ids : List String} {p : Paper} (h : p.picked = true) :
    (markOne ids p).picked = true := by
  unfold markOne; split <;> simp [h]

theorem markOne_picked_iff (ids : List String) (p : Paper) :
    (markOne ids p).picked = true ↔ (p.picked = true ∨ p.paper_id ∈ ids) := by
  unfold markOne
  by_cases h : p.paper_id ∈ ids <;> simp [h]

theorem mark_nil (s : List Paper) : mark_as_picked s [] = s := by
  unfold mark_as_picked
  have h : ∀ p ∈ s, markOne [] p = p := fun p _ => markOne_of_not_mem (by simp)
  rw [List.map_congr_left h]
  exact List.map_id s

theorem markOne_markOne (A B : List String) (p : Paper) :
    markOne B (markOne A p) = markOne (A ++ B) p := by
  unfold markOne
  by_cases hA : p.paper_id ∈ A
  · by_cases hB : p.paper_id ∈ B <;> simp [hA, hB]
  · by_cases hB : p.paper_id ∈ B <;> simp [hA, hB]

theorem mark_append (s : List Paper) (A B : List String) :
    mark_as_picked (mark_as_picked s A) B = mark_as_picked s (A ++ B) := by
  unfold mark_as_picked
  rw [List.map_map]
  exact List.map_congr_left (fun p _ => markOne_markOne A B p)

theorem mark_map_paper_id (s : List Paper) (ids : List String) :
    (mark_as_picked s ids).map (fun p => p.paper_id) = s.map (fun p => p.paper_id) := by
  unfold mark_as_picked
  rw [List.map_map]
  exact List.map_congr_left (fun p _ => markOne_paper_id ids p)

/-- After a `mark_as_picked` batch the unpicked rows are exactly the
previously unpicked rows whose id is not in the batch. -/
theorem unpicked_mark (s : List Paper) (ids : List String) :
    get_unpicked_papers (mark_as_picked s ids) =
      (get_unpicked_papers s).filter (fun p => !(decide (p.paper_id ∈ ids))) := by
  induction s with
  | nil => rfl
  | cons p t ih =>
    unfold get_unpicked_papers mark_as_picked at *
    by_cases hmem : p.paper_id ∈ ids
    · have hpk : (markOne ids p).picked = true := markOne_picked_of_mem hmem
      by_cases hp : p.picked = true <;>
        simp [List.filter_cons, hpk, hp, hmem, ih]
    · have hid : markOne ids p = p := markOne_of_not_mem hmem
      by_cases hp : p.picked = true <;>
        simp [List.filter_cons, hid, hp, hmem, ih]

theorem idPicked_mark_of_mem {ids : List String} {x : String} (h : x ∈ ids)
    (s : List Paper) : idPicked (mark_as_picked s ids) x := by
  intro q hq hqid
  rcases List.mem_map.mp hq with ⟨p, _, rfl⟩
  rw [markOne_paper_id] at hqid
  exact markOne_picked_of_mem (hqid ▸ h)

theorem idPicked_mark {s : List Paper} {x : String} (h : idPicked s x)
    (ids : List String) : idPicked (mark_as_picked s ids) x := by
  intro q hq hqid
  rcases List.mem_map.mp hq with ⟨p, hp, rfl⟩
  rw [markOne_paper_id] at hqid
  exact markOne_picked_mono (h p hp hqid)

/-- Marking never clears a `picked` flag (rows are kept in place). -/
theorem mark_picked_mono (s : List Paper) (ids : List String) :
    List.Forall₂ (fun p q => p.picked = true → q.picked = true) s (mark_as_picked s ids) := by
  unfold mark_as_picked
  induction s with
  | nil => exact List.Forall₂.nil
  | cons p t ih => exact List.Forall₂.cons (fun h => markOne_picked_mono h) ih

theorem insDesc_perm (x : Paper × ℚ) (l : List (Paper × ℚ)) :
    List.Perm (insDesc x l) (x :: l) := by
  induction l with
  | nil => exact List.Perm.refl _
  | cons y ys ih =>
    unfold insDesc
    split
    · exact List.Perm.refl _
    · exact List.Perm.trans (List.Perm.cons y ih) (List.Perm.swap x y ys)

theorem sortDesc_aux_perm (l : List (Paper × ℚ)) :
    ∀ acc, List.Perm (l.foldl (fun acc x => insDesc x acc) acc) (acc ++ l) := by
  induction l with
  | nil => intro acc; simp
  | cons x xs ih =>
    intro acc
    have h1 := ih (insDesc x acc)
    have h2 : List.Perm (insDesc x acc ++ xs) ((x :: acc) ++ xs) :=
      List.Perm.append_right xs (insDesc_perm x acc)
    have h3 : List.Perm ((x :: acc) ++ xs) (acc ++ x :: xs) := List.perm_middle.symm
    exact (h1.trans h2).trans h3

theorem sortDesc_perm (l : List (Paper × ℚ)) : List.Perm (sortDesc l) l :=
  sortDesc_aux_perm l []

theorem sortDesc_length (l : List (Paper × ℚ)) : (sortDesc l).length = l.length :=
  (sortDesc_perm l).length_eq

theorem mem_sortDesc {x : Paper × ℚ} {l : List (Paper × ℚ)} :
    x ∈ sortDesc l ↔ x ∈ l :=
  (sortDesc_perm l).mem_iff

theorem insDesc_sorted {x : Paper × ℚ} {l : List (Paper × ℚ)}
    (h : l.Pairwise (fun a b => b.2 ≤ a.2)) :
    (insDesc x l).Pairwise (fun a b => b.2 ≤ a.2) := by
  induction l with
  | nil => simp [insDesc]
  | cons y ys ih =>
    rcases List.pairwise_cons.mp h with ⟨hy, hys⟩
    unfold insDesc
    split
    · rename_i hlt
      refine List.pairwise_cons.mpr ⟨?_, h⟩
      intro b hb
      rcases List.mem_cons.mp hb with hb | hb
      · subst hb; exact le_of_lt hlt
      · exact le_trans (hy b hb) (le_of_lt hlt)
    · rename_i hnlt
      refine List.pairwise_cons.mpr ⟨?_, ih hys⟩
      intro b hb
      rcases List.mem_cons.mp ((insDesc_perm x ys).mem_iff.mp hb) with hb | hb
      · subst hb; exact not_lt.mp hnlt
      · exact hy b hb

theorem sortDesc_sorted (l : List (Paper × ℚ)) :
    (sortDesc l).Pairwise (fun a b => b.2 ≤ a.2) := by
  unfold sortDesc
  have haux : ∀ (t acc : List (Paper × ℚ)), acc.Pairwise (fun a b => b.2 ≤ a.2) →
      (t.foldl (fun acc x => insDesc x acc) acc).Pairwise (fun a b => b.2 ≤ a.2) := by
    intro t
    induction t with
    | nil => intro acc h; exact h
    | cons x xs ih => intro acc h; exact ih (insDesc x acc) (insDesc_sorted h)
  exact haux l [] List.Pairwise.nil

theorem dedupAux_sublist (l : List (Paper × ℚ)) (seen : List (List Char)) :
    (dedupAux l seen).Sublist l := by
  induction l generalizing seen with
  | nil => simp [dedupAux]
  | cons sp rest ih =>
    unfold dedupAux
    split
    · exact (ih seen).trans (List.sublist_cons_self sp rest)
    · exact (ih (title_norm sp.1 :: seen)).cons₂ sp

/-- Membership in the dedup output: exactly the first occurrence of each
normalized title not blocked by `seen`. -/
theorem mem_dedupAux {x : Paper × ℚ} (l : List (Paper × ℚ)) (seen : List (List Char)) :
    x ∈ dedupAux l seen ↔
      title_norm x.1 ∉ seen ∧
        l.find? (fun y => decide (title_norm y.1 = title_norm x.1)) = some x := by
  induction l generalizing seen with
  | nil => simp [dedupAux]
  | cons sp rest ih =>
    unfold dedupAux
    by_cases hseen : title_norm sp.1 ∈ seen
    · rw [if_pos hseen, ih seen]
      constructor
      · rintro ⟨hx, hfind⟩
        refine ⟨hx, ?_⟩
        rw [List.find?_cons_of_neg, hfind]
        simp only [decide_eq_true_eq]
        intro heq
        exact hx (heq ▸ hseen)
      · rintro ⟨hx, hfind⟩
        refine ⟨hx, ?_⟩
        rw [List.find?_cons] at hfind
        split at hfind
        · rename_i hsp
          simp only [decide_eq_true_eq] at hsp
          exact absurd (hsp ▸ hseen) ((Option.some_inj.mp hfind) ▸ hx)
        · exact hfind
    · rw [if_neg hseen]
      constructor
      · intro hx
        rcases List.mem_cons.mp hx with hx | hx
        · subst hx
          refine ⟨hseen, ?_⟩
          rw [List.find?_cons_of_pos]
          simp
        · rcases (ih (title_norm sp.1 :: seen)).mp hx with ⟨hnot, hfind⟩
          have hne : title_norm sp.1 ≠ title_norm x.1 := by
            intro heq
            exact hnot (by simp [heq])
          refine ⟨fun hc => hnot (by simp [hc]), ?_⟩
          rw [List.find?_cons_of_neg, hfind]
          simpa using hne
      · rintro ⟨hx, hfind⟩
        rw [List.find?_cons] at hfind
        split at hfind
        · rename_i hsp
          simp only [decide_eq_true_eq] at hsp
          exact (Option.some_inj.mp hfind) ▸ List.mem_cons_self sp _
        · rename_i hsp
          simp only [decide_eq_false_iff_not] at hsp
          refine List.mem_cons_of_mem sp ?_
          refine (ih (title_norm sp.1 :: seen)).mpr ⟨?_, hfind⟩
          intro hc
          rcases List.mem_cons.mp hc with hc | hc
          · exact hsp hc.symm
          · exact hx hc

theorem mem_dedupTitles {x : Paper × ℚ} (l : List (Paper × ℚ)) :
    x ∈ dedupTitles l ↔
      l.find? (fun y => decide (title_norm y.1 = title_norm x.1)) = some x := by
  unfold dedupTitles
  rw [mem_dedupAux]
  simp

/-- If the normalized titles of `l` are already distinct, deduplication
keeps the whole list. -/
theorem dedupAux_eq_self {l : List (Paper × ℚ)} {seen : List (List Char)}
    (hnd : (l.map (fun sp => title_norm sp.1)).Nodup)
    (hseen : ∀ x ∈ l, title_norm x.1 ∉ seen) :
    dedupAux l seen = l := by
  induction l generalizing seen with
  | nil => rfl
  | cons sp rest ih =>
    unfold dedupAux
    rw [if_neg (hseen sp (List.mem_cons_self sp rest))]
    rw [List.map_cons] at hnd
    rcases List.nodup_cons.mp hnd with ⟨hhd, htl⟩
    congr 1
    refine ih htl ?_
    intro x hx hc
    rcases List.mem_cons.mp hc with hc | hc
    · exact hhd (hc ▸ List.mem_map_of_mem (fun sp => title_norm sp.1) hx)
    · exact hseen x (List.mem_cons_of_mem sp hx) hc

/-- In a list sorted descending by score, the first element satisfying a
predicate has the maximal score among the elements satisfying it. -/
theorem find?_max_of_sorted {l : List (Paper × ℚ)} {pred : Paper × ℚ → Bool}
    {a b : Paper × ℚ} (hs : l.Pairwise (fun a b => b.2 ≤ a.2))
    (hfind : l.find? pred = some b) (ha : a ∈ l) (hpa : pred a = true) :
    a.2 ≤ b.2 := by
  induction l with
  | nil => simp at ha
  | cons hd t ih =>
    rcases List.pairwise_cons.mp hs with ⟨hh, ht⟩
    rw [List.find?_cons] at hfind
    rcases List.mem_cons.mp ha with ha | ha
    · subst ha
      split at hfind
      · exact le_of_eq (congrArg Prod.snd (Option.some_inj.mp hfind))
      · rename_i hph
        rw [hpa] at hph
        simp at hph
    · split at hfind
      · exact (Option.some_inj.mp hfind) ▸ hh a ha
      · exact ih ht hfind ha

theorem countP_or_disjoint {α : Type} (p q : α → Bool) :
    ∀ (l : List α), (∀ a ∈ l, ¬(p a = true ∧ q a = true)) →
      l.countP (fun a => p a || q a) = l.countP p + l.countP q := by
  intro l
  induction l with
  | nil => intro _; rfl
  | cons a t ih =>
    intro h
    have ht := ih (fun b hb => h b (List.mem_cons_of_mem a hb))
    have ha := h a (List.mem_cons_self a t)
    cases hp : p a <;> cases hq : q a
    · simp [List.countP_cons, hp, hq, ht]
    · simp [List.countP_cons, hp, hq, ht]
      omega
    · simp [List.countP_cons, hp, hq, ht]
      omega
    · exact absurd ⟨hp, hq⟩ ha

theorem countP_id_eq_one {l : List Paper} {x : String}
    (hl : (l.map (fun p => p.paper_id)).Nodup)
    (hx : x ∈ l.map (fun p => p.paper_id)) :
    l.countP (fun p => decide (p.paper_id = x)) = 1 := by
  induction l with
  | nil => simp at hx
  | cons p t ih =>
    rw [List.map_cons] at hl hx
    rcases List.nodup_cons.mp hl with ⟨hp, ht⟩
    rcases List.mem_cons.mp hx with hx | hx
    · rw [List.countP_cons_of_pos _ _ (by simpa using hx.symm)]
      have hzero : t.countP (fun p => decide (p.paper_id = x)) = 0 := by
        refine List.countP_eq_zero.mpr ?_
        intro a ha
        simp only [decide_eq_true_eq]
        intro hax
        have hmt : a.paper_id ∈ t.map (fun p => p.paper_id) :=
          List.mem_map_of_mem _ ha
        rw [hax, hx] at hmt
        exact hp hmt
      omega
    · rw [List.countP_cons_of_neg, ih ht hx]
      simp only [decide_eq_true_eq]
      intro hpx
      exact hp (hpx ▸ hx)

theorem countP_mem_ids {l : List Paper} {ids : List String}
    (hnd : ids.Nodup)
    (hl : (l.map (fun p => p.paper_id)).Nodup)
    (hmem : ∀ x ∈ ids, x ∈ l.map (fun p => p.paper_id)) :
    l.countP (fun p => decide (p.paper_id ∈ ids)) = ids.length := by
  induction ids with
  | nil =>
    refine (List.countP_eq_zero.mpr ?_)
    intro a _
    simp
  | cons x ids ih =>
    rcases List.nodup_cons.mp hnd with ⟨hx, hids⟩
    have hcongr : ∀ p ∈ l,
        (decide (p.paper_id ∈ x :: ids)) = true ↔
          (decide (p.paper_id = x) || decide (p.paper_id ∈ ids)) = true := by
      intro p _
      simp [List.mem_cons]
    rw [List.countP_congr hcongr,
      countP_or_disjoint _ _ l (by
        intro a _
        simp only [decide_eq_true_eq, not_and]
        intro hax hain
        exact absurd (hax ▸ hain) hx),
      countP_id_eq_one hl (hmem x (List.mem_cons_self x ids)),
      ih hids (fun y hy => hmem y (List.mem_cons_of_mem x hy))]
    simp [Nat.add_comm]

theorem length_filter_split {α : Type} (l : List α) (pred : α → Bool) :
    l.length = (l.filter pred).length + (l.filter (fun a => !pred a)).length := by
  induction l with
  | nil => rfl
  | cons a t ih =>
    cases hp : pred a <;> simp [List.filter_cons, hp, ih] <;> omega

/-- The conservation step: a `mark_as_picked` batch of distinct ids, all
ids of currently unpicked rows, shrinks the unpicked set by exactly the
batch size. -/
theorem unpicked_length_mark (s : List Paper) (ids : List String)
    (hnd : ids.Nodup) (hs : (s.map (fun p => p.paper_id)).Nodup)
    (hmem : ∀ x ∈ ids, x ∈ (get_unpicked_papers s).map (fun p => p.paper_id)) :
    (get_unpicked_papers s).length =
      (get_unpicked_papers (mark_as_picked s ids)).length + ids.length := by
  rw [unpicked_mark]
  have hsub : (get_unpicked_papers s).Sublist s := List.filter_sublist s
  have hl : ((get_unpicked_papers s).map (fun p => p.paper_id)).Nodup :=
    (hsub.map (fun p => p.paper_id)).nodup hs
  rw [length_filter_split (get_unpicked_papers s) (fun p => decide (p.paper_id ∈ ids))]
  have hcount : ((get_unpicked_papers s).filter (fun p => decide (p.paper_id ∈ ids))).length
      = ids.length := by
    rw [← List.countP_eq_length_filter]
    exact countP_mem_ids hnd hl hmem
  omega

theorem mem_pool {s : List Paper} {p : Paper} :
    p ∈ poolOf s ↔ p ∈ s ∧ p.picked = false := by
  unfold poolOf get_unpicked_papers
  rw [List.mem_filter]
  simp

theorem pool_sublist (s : List Paper) : (poolOf s).Sublist s :=
  List.filter_sublist s

theorem mem_gated {s : List Paper} {p : Paper} :
    p ∈ gatedOf s ↔ p ∈ poolOf s ∧ eligB p = true := by
  unfold gatedOf
  exact List.mem_filter

theorem mem_ineligible {s : List Paper} {p : Paper} :
    p ∈ ineligibleOf s ↔ p ∈ poolOf s ∧ eligB p = false := by
  unfold ineligibleOf
  rw [List.mem_filter]
  simp

theorem mem_scored {cfg : PicksCfg} {s : List Paper} {sp : Paper × ℚ}
    (h : sp ∈ scoredOf cfg s) :
    sp.1 ∈ gatedOf s ∧ sp = (sp.1, scoreD cfg sp.1) := by
  unfold scoredOf at h
  rcases List.mem_map.mp h with ⟨p, hp, rfl⟩
  exact ⟨hp, rfl⟩

theorem mem_ranked {cfg : PicksCfg} {s : List Paper} {sp : Paper × ℚ} :
    sp ∈ rankedOf cfg s ↔ sp ∈ scoredOf cfg s := by
  unfold rankedOf
  exact mem_sortDesc

theorem unique_sublist_ranked (cfg : PicksCfg) (s : List Paper) :
    (uniqueOf cfg s).Sublist (rankedOf cfg s) :=
  dedupAux_sublist (rankedOf cfg s) []

theorem mem_unique {cfg : PicksCfg} {s : List Paper} {sp : Paper × ℚ}
    (h : sp ∈ uniqueOf cfg s) :
    sp.1 ∈ gatedOf s ∧ sp = (sp.1, scoreD cfg sp.1) :=
  mem_scored (mem_ranked.mp ((unique_sublist_ranked cfg s).mem h))

theorem below_sublist_unique (cfg : PicksCfg) (s : List Paper) :
    (belowOf cfg s).Sublist (uniqueOf cfg s) :=
  List.filter_sublist (uniqueOf cfg s)

theorem above_sublist_unique (cfg : PicksCfg) (s : List Paper) :
    (aboveOf cfg s).Sublist (uniqueOf cfg s) :=
  List.filter_sublist (uniqueOf cfg s)

theorem mem_below {cfg : PicksCfg} {s : List Paper} {sp : Paper × ℚ} :
    sp ∈ belowOf cfg s ↔ sp ∈ uniqueOf cfg s ∧ sp.2 < cfg.min_score := by
  unfold belowOf belowThreshold
  rw [List.mem_filter]
  simp

theorem mem_above {cfg : PicksCfg} {s : List Paper} {sp : Paper × ℚ} :
    sp ∈ aboveOf cfg s ↔ sp ∈ uniqueOf cfg s ∧ cfg.min_score ≤ sp.2 := by
  unfold aboveOf aboveThreshold
  rw [List.mem_filter]
  simp

theorem sel_sublist_above (cfg : PicksCfg) (s : List Paper) :
    (selectedOf cfg s).Sublist (aboveOf cfg s) :=
  List.take_sublist _ _

theorem runners_sublist_above (cfg : PicksCfg) (s : List Paper) :
    (runnersOf cfg s).Sublist (aboveOf cfg s) :=
  (List.take_sublist _ _).trans (List.drop_sublist _ _)

/-- Distinct ids in the store make the paper id injective on the pool. -/
theorem pool_id_inj {s : List Paper}
    (hs : (s.map (fun p => p.paper_id)).Nodup)
    {p q : Paper} (hp : p ∈ poolOf s) (hq : q ∈ poolOf s)
    (hid : p.paper_id = q.paper_id) : p = q :=
  List.inj_on_of_nodup_map hs (mem_pool.mp hp).1 (mem_pool.mp hq).1 hid

theorem gated_ids_nodup {s : List Paper}
    (hs : (s.map (fun p => p.paper_id)).Nodup) :
    ((gatedOf s).map (fun p => p.paper_id)).Nodup :=
  (((List.filter_sublist _).trans (pool_sublist s)).map (fun p => p.paper_id)).nodup hs

theorem inel_ids_nodup {s : List Paper}
    (hs : (s.map (fun p => p.paper_id)).Nodup) :
    (inelIds s).Nodup := by
  unfold inelIds ineligibleOf
  exact (((List.filter_sublist (poolOf s)).trans (pool_sublist s)).map
    (fun p => p.paper_id)).nodup hs

theorem ranked_ids_perm (cfg : PicksCfg) (s : List Paper) :
    List.Perm ((rankedOf cfg s).map (fun sp => sp.1.paper_id))
      ((gatedOf s).map (fun p => p.paper_id)) := by
  have h1 : List.Perm ((rankedOf cfg s).map (fun sp => sp.1.paper_id))
      ((scoredOf cfg s).map (fun sp => sp.1.paper_id)) :=
    (sortDesc_perm (scoredOf cfg s)).map _
  have h2 : (scoredOf cfg s).map (fun sp => sp.1.paper_id) =
      (gatedOf s).map (fun p => p.paper_id) := by
    unfold scoredOf
    rw [List.map_map]
    rfl
  rw [h2] at h1
  exact h1

theorem ranked_ids_nodup {cfg : PicksCfg} {s : List Paper}
    (hs : (s.map (fun p => p.paper_id)).Nodup) :
    ((rankedOf cfg s).map (fun sp => sp.1.paper_id)).Nodup :=
  ((ranked_ids_perm cfg s).nodup_iff).mpr (gated_ids_nodup hs)

theorem unique_ids_nodup {cfg : PicksCfg} {s : List Paper}
    (hs : (s.map (fun p => p.paper_id)).Nodup) :
    ((uniqueOf cfg s).map (fun sp => sp.1.paper_id)).Nodup :=
  ((unique_sublist_ranked cfg s).map _).nodup (ranked_ids_nodup hs)

theorem below_ids_nodup {cfg : PicksCfg} {s : List Paper}
    (hs : (s.map (fun p => p.paper_id)).Nodup) :
    (belowIds cfg s).Nodup := by
  unfold belowIds
  exact ((below_sublist_unique cfg s).map (fun sp => sp.1.paper_id)).nodup
    (unique_ids_nodup hs)

theorem sel_ids_nodup {cfg : PicksCfg} {s : List Paper}
    (hs : (s.map (fun p => p.paper_id)).Nodup) :
    (selIds cfg s).Nodup := by
  unfold selIds
  exact (((sel_sublist_above cfg s).trans (above_sublist_unique cfg s)).map
    (fun sp => sp.1.paper_id)).nodup (unique_ids_nodup hs)

theorem store1_eq (s : List Paper) :
    store1Of s = mark_as_picked s (inelIds s) := by
  unfold store1Of
  split
  · rename_i h
    have hnil : ineligibleOf s = [] := by simpa [List.isEmpty_iff] using h
    unfold inelIds
    rw [hnil]
    exact (mark_nil s).symm
  · rfl

theorem store2_eq (cfg : PicksCfg) (s : List Paper) :
    store2Of cfg s = mark_as_picked (store1Of s) (belowIds cfg s) := by
  unfold store2Of
  split
  · rename_i h
    have hb : belowOf cfg s = [] := by simpa [List.isEmpty_iff] using h
    unfold belowIds
    rw [hb]
    exact (mark_nil _).symm
  · rfl

theorem store3_eq (cfg : PicksCfg) (s : List Paper) :
    store3Of cfg s = mark_as_picked s (inelIds s ++ belowIds cfg s ++ selIds cfg s) := by
  unfold store3Of
  rw [store2_eq, store1_eq, mark_append, mark_append, List.append_assoc]

theorem pick_no_pool {cfg : PicksCfg} {s : List Paper} (h : poolOf s = []) :
    pick_weekly_reading cfg s = (s, some ⟨NO_NEW_MD, [], [], none⟩) := by
  unfold pick_weekly_reading
  simp [h]

theorem pick_err_journal {cfg : PicksCfg} {s : List Paper} (h0 : poolOf s ≠ [])
    (h : ∃ p ∈ poolOf s, p.journal = none) :
    pick_weekly_reading cfg s = (s, none) := by
  unfold pick_weekly_reading
  have h2 : (poolOf s).any (fun p => p.journal.isNone) = true := by
    rcases h with ⟨p, hp, hnone⟩
    exact List.any_eq_true.mpr ⟨p, hp, by simp [hnone]⟩
  simp [List.isEmpty_iff, h0, h2]

theorem no_null_journal_any {s : List Paper}
    (h1 : ∀ p ∈ poolOf s, p.journal ≠ none) :
    (poolOf s).any (fun p => p.journal.isNone) = false := by
  rw [List.any_eq_false]
  intro p hp
  simp [Option.isNone_iff_eq_none]
  exact h1 p hp

theorem pick_no_eligible {cfg : PicksCfg} {s : List Paper} (h0 : poolOf s ≠ [])
    (h1 : ∀ p ∈ poolOf s, p.journal ≠ none) (h2 : gatedOf s = []) :
    pick_weekly_reading cfg s = (store1Of s, some ⟨NO_ELIGIBLE_MD, [], [], none⟩) := by
  unfold pick_weekly_reading
  simp [List.isEmpty_iff, h0, no_null_journal_any h1, h2]

theorem null_fields_any {s : List Paper}
    (h : ∃ p ∈ gatedOf s, p.title = none ∨ p.abstract = none) :
    (gatedOf s).any (fun p => p.title.isNone || p.abstract.isNone) = true := by
  rcases h with ⟨p, hp, hnone⟩
  refine List.any_eq_true.mpr ⟨p, hp, ?_⟩
  rcases hnone with hnone | hnone <;> simp [hnone]

theorem no_null_fields_any {s : List Paper}
    (h : ∀ p ∈ gatedOf s, p.title ≠ none ∧ p.abstract ≠ none) :
    (gatedOf s).any (fun p => p.title.isNone || p.abstract.isNone) = false := by
  rw [List.any_eq_false]
  intro p hp
  simp [Option.isNone_iff_eq_none]
  exact h p hp

theorem pick_err_fields {cfg : PicksCfg} {s : List Paper} (h0 : poolOf s ≠ [])
    (h1 : ∀ p ∈ poolOf s, p.journal ≠ none) (h2 : gatedOf s ≠ [])
    (h3 : ∃ p ∈ gatedOf s, p.title = none ∨ p.abstract = none) :
    pick_weekly_reading cfg s = (store1Of s, none) := by
  unfold pick_weekly_reading
  simp [List.isEmpty_iff, h0, no_null_journal_any h1, h2, null_fields_any h3]

theorem pick_no_above {cfg : PicksCfg} {s : List Paper} (h0 : poolOf s ≠ [])
    (h1 : ∀ p ∈ poolOf s, p.journal ≠ none) (h2 : gatedOf s ≠ [])
    (h3 : ∀ p ∈ gatedOf s, p.title ≠ none ∧ p.abstract ≠ none)
    (h4 : aboveOf cfg s = []) :
    pick_weekly_reading cfg s = (store2Of cfg s, some ⟨NO_ABOVE_MD, [], [], none⟩) := by
  unfold pick_weekly_reading
  simp [List.isEmpty_iff, h0, no_null_journal_any h1, h2, no_null_fields_any h3, h4]

theorem pick_success {cfg : PicksCfg} {s : List Paper} (h0 : poolOf s ≠ [])
    (h1 : ∀ p ∈ poolOf s, p.journal ≠ none) (h2 : gatedOf s ≠ [])
    (h3 : ∀ p ∈ gatedOf s, p.title ≠ none ∧ p.abstract ≠ none)
    (h4 : aboveOf cfg s ≠ []) :
    pick_weekly_reading cfg s =
      (store3Of cfg s,
        some ⟨"", selectedOf cfg s, runnersOf cfg s,
          some ((store3Of cfg s).filter (fun p => !p.picked)).length⟩) := by
  unfold pick_weekly_reading
  simp [List.isEmpty_iff, h0, no_null_journal_any h1, h2, no_null_fields_any h3, h4]

theorem gated_nil_unique {cfg : PicksCfg} {s : List Paper} (h : gatedOf s = []) :
    uniqueOf cfg s = [] := by
  unfold uniqueOf rankedOf scoredOf
  rw [h]
  rfl

theorem unique_nil_stages {cfg : PicksCfg} {s : List Paper} (h : uniqueOf cfg s = []) :
    belowOf cfg s = [] ∧ aboveOf cfg s = [] ∧ selectedOf cfg s = [] ∧ runnersOf cfg s = [] := by
  unfold belowOf aboveOf selectedOf runnersOf belowThreshold aboveThreshold
  unfold aboveOf aboveThreshold
  rw [h]
  simp

theorem above_nil_stages {cfg : PicksCfg} {s : List Paper} (h : aboveOf cfg s = []) :
    selectedOf cfg s = [] ∧ runnersOf cfg s = [] := by
  unfold selectedOf runnersOf
  rw [h]
  simp

theorem pool_nil_stages {s : List Paper} (h : poolOf s = []) :
    ineligibleOf s = [] ∧ gatedOf s = [] := by
  unfold ineligibleOf gatedOf
  rw [h]
  simp

theorem gated_id_not_inel {s : List Paper}
    (hs : (s.map (fun p => p.paper_id)).Nodup)
    {p : Paper} (hp : p ∈ gatedOf s) : p.paper_id ∉ inelIds s := by
  intro hmem
  rcases List.mem_map.mp hmem with ⟨q, hq, hqid⟩
  have heq : q = p :=
    pool_id_inj hs (mem_ineligible.mp hq).1 (mem_gated.mp hp).1 hqid
  have hfalse := (mem_ineligible.mp hq).2
  rw [heq] at hfalse
  rw [(mem_gated.mp hp).2] at hfalse
  cases hfalse

theorem unique_id_determines {cfg : PicksCfg} {s : List Paper}
    (hs : (s.map (fun p => p.paper_id)).Nodup)
    {sp tq : Paper × ℚ} (hsp : sp ∈ uniqueOf cfg s) (htq : tq ∈ uniqueOf cfg s)
    (hid : sp.1.paper_id = tq.1.paper_id) : sp = tq := by
  obtain ⟨hg1, he1⟩ := mem_unique hsp
  obtain ⟨hg2, he2⟩ := mem_unique htq
  have hfst : sp.1 = tq.1 :=
    pool_id_inj hs (mem_gated.mp hg1).1 (mem_gated.mp hg2).1 hid
  rw [he1, he2, hfst]

theorem below_id_not_inel {cfg : PicksCfg} {s : List Paper}
    (hs : (s.map (fun p => p.paper_id)).Nodup)
    {x : String} (hx : x ∈ belowIds cfg s) : x ∉ inelIds s := by
  rcases List.mem_map.mp hx with ⟨sp, hsp, rfl⟩
  exact gated_id_not_inel hs (mem_unique ((below_sublist_unique cfg s).mem hsp)).1

theorem sel_id_not_inel {cfg : PicksCfg} {s : List Paper}
    (hs : (s.map (fun p => p.paper_id)).Nodup)
    {x : String} (hx : x ∈ selIds cfg s) : x ∉ inelIds s := by
  rcases List.mem_map.mp hx with ⟨sp, hsp, rfl⟩
  exact gated_id_not_inel hs
    (mem_unique ((above_sublist_unique cfg s).mem
      ((sel_sublist_above cfg s).mem hsp))).1

theorem sel_id_not_below {cfg : PicksCfg} {s : List Paper}
    (hs : (s.map (fun p => p.paper_id)).Nodup)
    {x : String} (hx : x ∈ selIds cfg s) : x ∉ belowIds cfg s := by
  intro hb
  rcases List.mem_map.mp hx with ⟨sp, hsp, hspid⟩
  rcases List.mem_map.mp hb with ⟨tq, htq, htqid⟩
  have hspA := mem_above.mp ((sel_sublist_above cfg s).mem hsp)
  have htqB := mem_below.mp htq
  have heq : sp = tq :=
    unique_id_determines hs hspA.1 htqB.1 (by rw [hspid, htqid])
  have := hspA.2
  rw [heq] at this
  exact absurd htqB.2 (not_lt.mpr this)

/-- Any completed (`some`-returning) pass leaves the store at
`store3Of` and reports exactly the `selectedOf`/`runnersOf` stages. -/
theorem pick_some_shape {cfg : PicksCfg} {s : List Paper} {res : PickResult}
    (h : (pick_weekly_reading cfg s).2 = some res) :
    (pick_weekly_reading cfg s).1 = store3Of cfg s ∧
      res.selected = selectedOf cfg s ∧ res.runners = runnersOf cfg s := by
  by_cases hpool : poolOf s = []
  · obtain ⟨hinel, hgate⟩ := pool_nil_stages hpool
    obtain ⟨hb, hab, hsel, hrun⟩ := unique_nil_stages (@gated_nil_unique cfg s hgate)
    rw [pick_no_pool hpool] at h ⊢
    have hres : res = ⟨NO_NEW_MD, [], [], none⟩ := by simpa using h.symm
    subst hres
    refine ⟨?_, by simp [hsel], by simp [hrun]⟩
    rw [store3_eq]
    unfold inelIds belowIds selIds
    rw [hinel, hb, hsel]
    exact (mark_nil s).symm
  · by_cases hj : ∀ p ∈ poolOf s, p.journal ≠ none
    · by_cases hg : gatedOf s = []
      · obtain ⟨hb, hab, hsel, hrun⟩ :=
          unique_nil_stages (@gated_nil_unique cfg s hg)
        rw [pick_no_eligible hpool hj hg] at h ⊢
        have hres : res = ⟨NO_ELIGIBLE_MD, [], [], none⟩ := by simpa using h.symm
        subst hres
        refine ⟨?_, by simp [hsel], by simp [hrun]⟩
        rw [store3_eq, store1_eq]
        unfold belowIds selIds
        rw [hb, hsel]
        simp
      · by_cases hf : ∀ p ∈ gatedOf s, p.title ≠ none ∧ p.abstract ≠ none
        · by_cases hab : aboveOf cfg s = []
          · obtain ⟨hsel, hrun⟩ := above_nil_stages hab
            rw [pick_no_above hpool hj hg hf hab] at h ⊢
            have hres : res = ⟨NO_ABOVE_MD, [], [], none⟩ := by simpa using h.symm
            subst hres
            refine ⟨?_, by simp [hsel], by simp [hrun]⟩
            unfold store3Of
            unfold selIds
            rw [hsel]
            exact (mark_nil _).symm
          · rw [pick_success hpool hj hg hf hab] at h ⊢
            have hres : res = ⟨"", selectedOf cfg s, runnersOf cfg s,
                some ((store3Of cfg s).filter (fun p => !p.picked)).length⟩ := by
              simpa using h.symm
            subst hres
            exact ⟨rfl, rfl, rfl⟩
        · push_neg at hf
          rcases hf with ⟨p, hp, hpf⟩
          rw [pick_err_fields hpool hj hg ⟨p, hp, by tauto⟩] at h
          simp at h
    · push_neg at hj
      rcases hj with ⟨p, hp, hpj⟩
      rw [pick_err_journal hpool ⟨p, hp, hpj⟩] at h
      simp at h

/-- Backlog conservation over the three mark batches of one pass. -/
theorem conservation (cfg : PicksCfg) (s : List Paper)
    (hs : (s.map (fun p => p.paper_id)).Nodup) :
    (poolOf s).length =
      (ineligibleOf s).length + (belowOf cfg s).length + (selectedOf cfg s).length +
        (get_unpicked_papers (store3Of cfg s)).length := by
  have hmem1 : ∀ x ∈ inelIds s, x ∈ (get_unpicked_papers s).map (fun p => p.paper_id) := by
    intro x hx
    rcases List.mem_map.mp hx with ⟨p, hp, rfl⟩
    exact List.mem_map_of_mem _ (mem_ineligible.mp hp).1
  have h1 : (get_unpicked_papers s).length =
      (get_unpicked_papers (mark_as_picked s (inelIds s))).length + (inelIds s).length :=
    unpicked_length_mark s _ (inel_ids_nodup hs) hs hmem1
  have hs1 : ((mark_as_picked s (inelIds s)).map (fun p => p.paper_id)).Nodup := by
    rw [mark_map_paper_id]; exact hs
  have hunp1 : get_unpicked_papers (mark_as_picked s (inelIds s)) =
      (get_unpicked_papers s).filter (fun p => !(decide (p.paper_id ∈ inelIds s))) :=
    unpicked_mark s (inelIds s)
  have hmem2 : ∀ x ∈ belowIds cfg s,
      x ∈ (get_unpicked_papers (mark_as_picked s (inelIds s))).map (fun p => p.paper_id) := by
    intro x hx
    rcases List.mem_map.mp hx with ⟨sp, hsp, rfl⟩
    have hgat : sp.1 ∈ gatedOf s := (mem_unique ((below_sublist_unique cfg s).mem hsp)).1
    have hpool : sp.1 ∈ poolOf s := (mem_gated.mp hgat).1
    have hninel : sp.1.paper_id ∉ inelIds s := gated_id_not_inel hs hgat
    refine List.mem_map_of_mem _ ?_
    rw [hunp1]
    rw [List.mem_filter]
    exact ⟨hpool, by simpa using hninel⟩
  have h2 : (get_unpicked_papers (mark_as_picked s (inelIds s))).length =
      (get_unpicked_papers
        (mark_as_picked (mark_as_picked s (inelIds s)) (belowIds cfg s))).length +
        (belowIds cfg s).length :=
    unpicked_length_mark _ _ (below_ids_nodup hs) hs1 hmem2
  have hs2 : ((mark_as_picked (mark_as_picked s (inelIds s)) (belowIds cfg s)).map
      (fun p => p.paper_id)).Nodup := by
    rw [mark_map_paper_id, mark_map_paper_id]; exact hs
  have hunp2 : get_unpicked_papers
      (mark_as_picked (mark_as_picked s (inelIds s)) (belowIds cfg s)) =
      ((get_unpicked_papers s).filter (fun p => !(decide (p.paper_id ∈ inelIds s)))).filter
        (fun p => !(decide (p.paper_id ∈ belowIds cfg s))) := by
    rw [unpicked_mark, hunp1]
  have hmem3 : ∀ x ∈ selIds cfg s,
      x ∈ (get_unpicked_papers
        (mark_as_picked (mark_as_picked s (inelIds s)) (belowIds cfg s))).map
          (fun p => p.paper_id) := by
    intro x hx
    rcases List.mem_map.mp hx with ⟨sp, hsp, rfl⟩
    have hxs : sp.1.paper_id ∈ selIds cfg s := List.mem_map_of_mem _ hsp
    have hgat : sp.1 ∈ gatedOf s :=
      (mem_unique ((above_sublist_unique cfg s).mem
        ((sel_sublist_above cfg s).mem hsp))).1
    have hpool : sp.1 ∈ poolOf s := (mem_gated.mp hgat).1
    refine List.mem_map_of_mem _ ?_
    rw [hunp2]
    rw [List.mem_filter, List.mem_filter]
    refine ⟨⟨hpool, by simpa using gated_id_not_inel hs hgat⟩, ?_⟩
    simpa using sel_id_not_below hs hxs
  have h3 : (get_unpicked_papers
      (mark_as_picked (mark_as_picked s (inelIds s)) (belowIds cfg s))).length =
      (get_unpicked_papers (mark_as_picked
        (mark_as_picked (mark_as_picked s (inelIds s)) (belowIds cfg s))
        (selIds cfg s))).length + (selIds cfg s).length :=
    unpicked_length_mark _ _ (sel_ids_nodup hs) hs2 hmem3
  have hstore : store3Of cfg s =
      mark_as_picked (mark_as_picked (mark_as_picked s (inelIds s)) (belowIds cfg s))
        (selIds cfg s) := by
    unfold store3Of
    rw [store2_eq, store1_eq]
  rw [hstore]
  have hl1 : (inelIds s).length = (ineligibleOf s).length := List.length_map _ _
  have hl2 : (belowIds cfg s).length = (belowOf cfg s).length := List.length_map _ _
  have hl3 : (selIds cfg s).length = (selectedOf cfg s).length := List.length_map _ _
  have hpool : (poolOf s).length = (get_unpicked_papers s).length := rfl
  omega

/-- C9: on an empty pool of unpicked papers, `pick_weekly_reading`
returns the exact "No new papers this week." markdown, an empty
selection, no runners-up, no remaining-count, and the store unchanged
(no status mutation). -/
theorem C9_empty_pool (cfg : PicksCfg) (s : List Paper)
    (h : get_unpicked_papers s = []) :
    pick_weekly_reading cfg s = (s, some ⟨NO_NEW_MD, [], [], none⟩) :=
  pick_no_pool h

/-- Witness for C9 at a store holding one already-picked row. -/
theorem C9_empty_pool_witness :
    pick_weekly_reading cfgN7 [pickedPaper] =
      ([pickedPaper], some ⟨NO_NEW_MD, [], [], none⟩) :=
  C9_empty_pool cfgN7 [pickedPaper] (by decide)

theorem uniqueOf_min_irrel (cfg : PicksCfg) (m : ℚ) (s : List Paper) :
    uniqueOf { cfg with min_score := m } s = uniqueOf cfg s := rfl

/-- C7: with the same pool (hence the same scored, deduplicated
candidate list), a higher `min_score` admits a subset of the survivors a
lower `min_score` admits. -/
theorem C7_threshold_monotone (cfg : PicksCfg) (m1 m2 : ℚ) (s : List Paper)
    (h : m1 ≤ m2) :
    ∀ sp ∈ aboveOf { cfg with min_score := m2 } s,
      sp ∈ aboveOf { cfg with min_score := m1 } s := by
  intro sp hsp
  unfold aboveOf aboveThreshold at *
  rw [uniqueOf_min_irrel] at *
  rw [List.mem_filter] at *
  refine ⟨hsp.1, ?_⟩
  have h2 : m2 ≤ sp.2 := by simpa using hsp.2
  simpa using le_trans h h2

/-- Witness for C7: the sole survivor at threshold 40 also survives at 0. -/
theorem C7_threshold_monotone_witness :
    (dupHi, (40 : ℚ)) ∈ aboveOf { cfgN1 with min_score := 0 } [dupHi] := by
  refine C7_threshold_monotone cfgN1 0 40 [dupHi] (by norm_num)
    (dupHi, (40 : ℚ)) ?_
  unfold aboveOf aboveThreshold uniqueOf rankedOf scoredOf
  norm_num [gatedOf, poolOf, get_unpicked_papers, eligB, is_eligible, isEligibleStr,
    ELIGIBLE_SOURCES, TOP5, TOP_FIELD, FIELD_JOURNALS, dupHi, cfgN1, sortDesc, insDesc,
    dedupTitles, dedupAux, scoreD, score_paper, venueTier, keyword_hits, wget, round2,
    lower, title_norm, trimChars]

theorem jmp_no_other_tier :
    containsNBER "Job Market Paper" = false ∧ "Job Market Paper" ∉ FIELD_JOURNALS := by
  decide

theorem field_no_nber : ∀ j ∈ FIELD_JOURNALS, containsNBER j = false := by
  decide

/-- C6: the venue-tier contribution of `score_paper` is the source's
if-chain `venueTier`; it agrees with the spec's tier-priority order
(the tiers are pairwise disjoint), is zero when no tier matches, and a
tierless venue still scores without raising. -/
theorem C6_venue_tier (j : String) (w : List (String × ℚ)) :
    venueTier j w = venueTierSpec j w ∧
      (¬(j ∈ TOP5 ∨ j ∈ TOP_FIELD ∨ containsNBER j = true ∨ j ∈ FIELD_JOURNALS ∨
          j = "Job Market Paper") → venueTier j w = 0) ∧
      (∀ (pid t a : String) (au u d : Option String) (r pk : Bool) (cfg : PicksCfg),
        (score_paper ⟨pid, some t, au, some a, some j, u, d, r, pk⟩ cfg w).isSome = true) := by
  refine ⟨?_, ?_, ?_⟩
  · unfold venueTier venueTierSpec
    by_cases h5 : j ∈ TOP5
    · simp [h5]
    · by_cases htf : j ∈ TOP_FIELD
      · simp [h5, htf]
      · by_cases hjmp : j = "Job Market Paper"
        · subst hjmp
          simp [h5, htf, jmp_no_other_tier.1, jmp_no_other_tier.2]
        · by_cases hfj : j ∈ FIELD_JOURNALS
          · simp [h5, htf, hjmp, hfj, field_no_nber j hfj]
          · by_cases hnber : containsNBER j
            · simp [h5, htf, hjmp, hfj, hnber]
            · simp [h5, htf, hjmp, hfj, hnber]
  · intro h
    push_neg at h
    obtain ⟨h5, htf, hnber, hfj, hjmp⟩ := h
    unfold venueTier
    simp [h5, htf, hnber, hfj, hjmp]
  · intro pid t a au u d r pk cfg
    rfl

/-- Witness for C6 at a venue that matches no tier. -/
theorem C6_venue_tier_witness : venueTier "Journal X" [] = 0 :=
  (C6_venue_tier "Journal X" []).2.1 (by decide)

theorem dedupAux_titles_nodup (l : List (Paper × ℚ)) (seen : List (List Char)) :
    ((dedupAux l seen).map (fun sp => title_norm sp.1)).Nodup := by
  induction l generalizing seen with
  | nil => simp [dedupAux]
  | cons sp rest ih =>
    unfold dedupAux
    split
    · exact ih seen
    · rw [List.map_cons]
      refine List.nodup_cons.mpr ⟨?_, ih (title_norm sp.1 :: seen)⟩
      intro hmem
      rcases List.mem_map.mp hmem with ⟨x, hx, hxt⟩
      have hnot := ((mem_dedupAux rest (title_norm sp.1 :: seen)).mp hx).1
      exact hnot (by simp [hxt])

/-- C5: on a score-descending input, title deduplication keeps exactly
the first occurrence of each normalized (stripped, lower-cased) title,
its output has pairwise distinct normalized titles covering every input
title, and a strictly lower-scoring entry of a duplicated title never
survives. -/
theorem C5_dedup_correct (l : List (Paper × ℚ))
    (hsort : l.Pairwise (fun a b => b.2 ≤ a.2)) :
    (∀ sp, sp ∈ dedupTitles l ↔
        l.find? (fun y => decide (title_norm y.1 = title_norm sp.1)) = some sp) ∧
      ((dedupTitles l).map (fun sp => title_norm sp.1)).Nodup ∧
      (∀ a ∈ l, ∃ b ∈ dedupTitles l, title_norm b.1 = title_norm a.1) ∧
      (∀ a ∈ l, ∀ b ∈ l, title_norm a.1 = title_norm b.1 → b.2 < a.2 →
        b ∉ dedupTitles l) := by
  refine ⟨fun sp => mem_dedupTitles l, dedupAux_titles_nodup l [], ?_, ?_⟩
  · intro a ha
    have hsome : (l.find? (fun y => decide (title_norm y.1 = title_norm a.1))).isSome := by
      rw [List.find?_isSome]
      exact ⟨a, ha, by simp⟩
    rcases Option.isSome_iff_exists.mp hsome with ⟨b, hb⟩
    have hbt : title_norm b.1 = title_norm a.1 := by
      have := List.find?_some hb
      simpa using this
    refine ⟨b, ?_, hbt⟩
    rw [mem_dedupTitles]
    rw [hbt]
    exact hb
  · intro a ha b hb htitle hlt hbdedup
    have hfind := (mem_dedupTitles l).mp hbdedup
    have hle : a.2 ≤ b.2 :=
      find?_max_of_sorted hsort hfind ha (by simp [htitle])
    exact absurd hle (not_le.mpr hlt)

/-- Witness for C5: the lower-scoring copy of a duplicated title is
dropped from a concrete sorted list. -/
theorem C5_dedup_correct_witness :
    (dupLo, (30 : ℚ)) ∉ dedupTitles [(dupHi, (40 : ℚ)), (dupLo, (30 : ℚ))] := by
  refine (C5_dedup_correct [(dupHi, (40 : ℚ)), (dupLo, (30 : ℚ))] ?_).2.2.2
    (dupHi, (40 : ℚ)) (by simp) (dupLo, (30 : ℚ)) (by simp) (by decide) (by norm_num)
  refine List.pairwise_cons.mpr ⟨?_, by simp⟩
  intro b hb
  rcases List.mem_cons.mp hb with hb | hb
  · subst hb; norm_num
  · simp at hb

/-- Every pass leaves the store as a single `mark_as_picked` batch over
ids drawn from the three discard/selection groups. -/
theorem pick_fst_mark (cfg : PicksCfg) (s : List Paper) :
    ∃ L, (pick_weekly_reading cfg s).1 = mark_as_picked s L ∧
      ∀ x ∈ L, x ∈ inelIds s ++ belowIds cfg s ++ selIds cfg s := by
  by_cases hpool : poolOf s = []
  · rw [pick_no_pool hpool]
    exact ⟨[], (mark_nil s).symm, by simp⟩
  · by_cases hj : ∀ p ∈ poolOf s, p.journal ≠ none
    · by_cases hg : gatedOf s = []
      · rw [pick_no_eligible hpool hj hg]
        refine ⟨inelIds s, store1_eq s, ?_⟩
        intro x hx
        simp [hx]
      · by_cases hf : ∀ p ∈ gatedOf s, p.title ≠ none ∧ p.abstract ≠ none
        · by_cases hab : aboveOf cfg s = []
          · rw [pick_no_above hpool hj hg hf hab]
            refine ⟨inelIds s ++ belowIds cfg s, ?_, ?_⟩
            · rw [store2_eq, store1_eq, mark_append]
            · intro x hx
              rcases List.mem_append.mp hx with hx | hx <;> simp [hx]
          · rw [pick_success hpool hj hg hf hab]
            refine ⟨inelIds s ++ belowIds cfg s ++ selIds cfg s, store3_eq cfg s, ?_⟩
            intro x hx
            exact hx
        · push_neg at hf
          rcases hf with ⟨p, hp, hpf⟩
          rw [pick_err_fields hpool hj hg ⟨p, hp, by tauto⟩]
          refine ⟨inelIds s, store1_eq s, ?_⟩
          intro x hx
          simp [hx]
    · push_neg at hj
      rcases hj with ⟨p, hp, hpj⟩
      rw [pick_err_journal hpool ⟨p, hp, hpj⟩]
      exact ⟨[], (mark_nil s).symm, by simp⟩

theorem idPicked_engine {t u : List Paper} {x : String} (hop : EngineOp t u)
    (h : idPicked t x) : idPicked u x := by
  cases hop with
  | mark ids => exact idPicked_mark h ids
  | run cfg =>
    obtain ⟨L, hL, _⟩ := pick_fst_mark cfg t
    rw [hL]
    exact idPicked_mark h L

theorem idPicked_reach {t u : List Paper} {x : String} (hr : Reach t u)
    (h : idPicked t x) : idPicked u x := by
  induction hr with
  | refl => exact h
  | tail _ hop ih => exact idPicked_engine hop ih

theorem unpicked_not_id {t : List Paper} {x : String} (h : idPicked t x) :
    ∀ p ∈ get_unpicked_papers t, p.paper_id ≠ x := by
  intro p hp heq
  have hmem := mem_pool.mp hp
  have := h p hmem.1 heq
  rw [hmem.2] at this
  cases this

theorem selected_from_pool {cfg : PicksCfg} {t : List Paper} {sp : Paper × ℚ}
    (h : sp ∈ selectedOf cfg t) : sp.1 ∈ poolOf t :=
  (mem_gated.mp
    (mem_unique ((above_sublist_unique cfg t).mem
      ((sel_sublist_above cfg t).mem h))).1).1

/-- C1: once a `mark_as_picked` call includes an id, then in every store
reachable by further engine operations that id never appears among the
unpicked papers, is never part of a pass's selection, and no engine
operation ever turns any picked row back to unpicked. -/
theorem C1_marked_is_permanent (s : List Paper) (ids : List String) (x : String)
    (hx : x ∈ ids) :
    ∀ t, Reach (mark_as_picked s ids) t →
      (∀ p ∈ get_unpicked_papers t, p.paper_id ≠ x) ∧
      (∀ (cfg : PicksCfg) (res : PickResult),
        (pick_weekly_reading cfg t).2 = some res →
          ∀ sp ∈ res.selected, sp.1.paper_id ≠ x) ∧
      (∀ u, EngineOp t u →
        List.Forall₂ (fun p q => p.picked = true → q.picked = true) t u) := by
  intro t hreach
  have hid : idPicked t x := idPicked_reach hreach (idPicked_mark_of_mem hx s)
  refine ⟨unpicked_not_id hid, ?_, ?_⟩
  · intro cfg res hres sp hsp
    have hsel : sp ∈ selectedOf cfg t := by
      rw [(pick_some_shape hres).2.1] at hsp
      exact hsp
    have hpool := selected_from_pool hsel
    have hunp : sp.1.picked = false := (mem_pool.mp hpool).2
    intro heq
    have := hid sp.1 (mem_pool.mp hpool).1 heq
    rw [hunp] at this
    cases this
  · intro u hop
    cases hop with
    | mark ids => exact mark_picked_mono t ids
    | run cfg =>
      obtain ⟨L, hL, _⟩ := pick_fst_mark cfg t
      rw [hL]
      exact mark_picked_mono t L

/-- Witness for C1 at a one-row store whose only id is marked. -/
theorem C1_marked_is_permanent_witness :
    (∀ p ∈ get_unpicked_papers (mark_as_picked [samplePaper "a" "Alpha"] ["a"]),
        p.paper_id ≠ "a") ∧
      (∀ (cfg : PicksCfg) (res : PickResult),
        (pick_weekly_reading cfg (mark_as_picked [samplePaper "a" "Alpha"] ["a"])).2 =
            some res →
          ∀ sp ∈ res.selected, sp.1.paper_id ≠ "a") ∧
      (∀ u, EngineOp (mark_as_picked [samplePaper "a" "Alpha"] ["a"]) u →
        List.Forall₂ (fun p q => p.picked = true → q.picked = true)
          (mark_as_picked [samplePaper "a" "Alpha"] ["a"]) u) :=
  C1_marked_is_permanent [samplePaper "a" "Alpha"] ["a"] "a" (by decide) _
    (Reach.refl _)

/-- C2: for any completed pass over a store with distinct ids, the
initially unpicked papers split exactly into the ineligible discards,
the below-threshold discards, the selection, and the papers still
unpicked afterwards. -/
theorem C2_backlog_conservation (cfg : PicksCfg) (s : List Paper)
    (hs : (s.map (fun p => p.paper_id)).Nodup)
    (res : PickResult) (hres : (pick_weekly_reading cfg s).2 = some res) :
    (get_unpicked_papers s).length =
      (ineligibleOf s).length + (belowOf cfg s).length + res.selected.length +
        (get_unpicked_papers (pick_weekly_reading cfg s).1).length := by
  obtain ⟨hfst, hsel, _⟩ := pick_some_shape hres
  rw [hfst, hsel]
  exact conservation cfg s hs

/-- Witness for C2 at a one-row store whose paper is selected. -/
theorem C2_backlog_conservation_witness :
    (get_unpicked_papers [samplePaper "a" "Alpha"]).length =
      (ineligibleOf [samplePaper "a" "Alpha"]).length +
        (belowOf cfgN7 [samplePaper "a" "Alpha"]).length +
        (PickResult.mk "" [(samplePaper "a" "Alpha", 30)] [] (some 0)).selected.length +
        (get_unpicked_papers
          (pick_weekly_reading cfgN7 [samplePaper "a" "Alpha"]).1).length := by
  refine C2_backlog_conservation cfgN7 [samplePaper "a" "Alpha"] (by decide)
    ⟨"", [(samplePaper "a" "Alpha", 30)], [], some 0⟩ ?_
  norm_num [pick_weekly_reading, poolOf, get_unpicked_papers, ineligibleOf, gatedOf,
    eligB, is_eligible, isEligibleStr, ELIGIBLE_SOURCES, TOP5, TOP_FIELD, FIELD_JOURNALS,
    containsNBER, hasSub, isPre, samplePaper, cfgN7, belowOf, aboveOf, uniqueOf, rankedOf,
    scoredOf, sortDesc, insDesc, dedupTitles, dedupAux, belowThreshold, aboveThreshold,
    selectedOf, runnersOf, mark_as_picked, markOne, title_norm, trimChars, lower,
    scoreD, score_paper, venueTier, keyword_hits, wget, round2,
    store1Of, store2Of, store3Of, inelIds, belowIds, selIds]

/-- A reported remaining count is the number of unpicked rows in the
returned store. -/
theorem pick_remaining {cfg : PicksCfg} {s : List Paper} {res : PickResult}
    (hres : (pick_weekly_reading cfg s).2 = some res) {n : Nat}
    (hrem : res.remaining = some n) :
    (get_unpicked_papers (pick_weekly_reading cfg s).1).length = n := by
  by_cases hpool : poolOf s = []
  · rw [pick_no_pool hpool] at hres
    have hr : res = ⟨NO_NEW_MD, [], [], none⟩ := by simpa using hres.symm
    rw [hr] at hrem
    cases hrem
  · by_cases hj : ∀ p ∈ poolOf s, p.journal ≠ none
    · by_cases hg : gatedOf s = []
      · rw [pick_no_eligible hpool hj hg] at hres
        have hr : res = ⟨NO_ELIGIBLE_MD, [], [], none⟩ := by simpa using hres.symm
        rw [hr] at hrem
        cases hrem
      · by_cases hf : ∀ p ∈ gatedOf s, p.title ≠ none ∧ p.abstract ≠ none
        · by_cases hab : aboveOf cfg s = []
          · rw [pick_no_above hpool hj hg hf hab] at hres
            have hr : res = ⟨NO_ABOVE_MD, [], [], none⟩ := by simpa using hres.symm
            rw [hr] at hrem
            cases hrem
          · rw [pick_success hpool hj hg hf hab] at hres ⊢
            have hr : res = ⟨"", selectedOf cfg s, runnersOf cfg s,
                some ((store3Of cfg s).filter (fun p => !p.picked)).length⟩ := by
              simpa using hres.symm
            rw [hr] at hrem
            have hn : ((store3Of cfg s).filter (fun p => !p.picked)).length = n := by
              simpa using hrem
            exact hn
        · push_neg at hf
          rcases hf with ⟨p, hp, hpf⟩
          rw [pick_err_fields hpool hj hg ⟨p, hp, by tauto⟩] at hres
          simp at hres
    · push_neg at hj
      rcases hj with ⟨p, hp, hpj⟩
      rw [pick_err_journal hpool ⟨p, hp, hpj⟩] at hres
      simp at hres

/-- Counterexample to C3: two distinct-title eligible papers, `N = 1`.
The first run selects one and leaves the runner-up unpicked; the second
run (same pool, same config, nothing new ingested) selects the
runner-up, so its selection is not empty. -/
theorem C3_counterexample :
    ((pick_weekly_reading cfgN1
        (pick_weekly_reading cfgN1
          [samplePaper "a" "Alpha", samplePaper "b" "Beta"]).1).2.map
      (fun r => r.selected.map (fun sp => sp.1.paper_id))) = some ["b"] ∧
      some (["b"] : List String) ≠ some ([] : List String) := by
  constructor
  · have hba : (("b" : String) = "a") = False := by decide
    have hab : (("a" : String) = "b") = False := by decide
    norm_num [hba, hab, pick_weekly_reading, poolOf, get_unpicked_papers, ineligibleOf,
      gatedOf, eligB, is_eligible, isEligibleStr, ELIGIBLE_SOURCES, TOP5, TOP_FIELD,
      FIELD_JOURNALS, containsNBER, hasSub, isPre, samplePaper, cfgN1, belowOf, aboveOf,
      uniqueOf, rankedOf, scoredOf, sortDesc, insDesc, dedupTitles, dedupAux,
      belowThreshold, aboveThreshold, selectedOf, runnersOf, mark_as_picked, markOne,
      title_norm, trimChars, lower, scoreD, score_paper, venueTier, keyword_hits, wget,
      round2, store1Of, store2Of, store3Of, inelIds, belowIds, selIds]
  · decide

/-- C3 amended: an immediate re-run with the unchanged pool and config
returns the empty "no candidates" outcome provided the first completed
run reported a remaining backlog of 0 (as the counterexample shows, an
unconditional empty re-run fails: runners-up are left unpicked). -/
theorem C3_rerun_empty (cfg : PicksCfg) (s : List Paper) (res : PickResult)
    (hres : (pick_weekly_reading cfg s).2 = some res)
    (hrem : res.remaining = some 0) :
    pick_weekly_reading cfg (pick_weekly_reading cfg s).1 =
      ((pick_weekly_reading cfg s).1, some ⟨NO_NEW_MD, [], [], none⟩) := by
  have hlen := pick_remaining hres hrem
  exact pick_no_pool (List.length_eq_zero.mp hlen)

/-- Witness for the amended C3 at a one-row store fully drained by the
first run. -/
theorem C3_rerun_empty_witness :
    pick_weekly_reading cfgN7 (pick_weekly_reading cfgN7 [samplePaper "a" "Alpha"]).1 =
      ((pick_weekly_reading cfgN7 [samplePaper "a" "Alpha"]).1,
        some ⟨NO_NEW_MD, [], [], none⟩) := by
  refine C3_rerun_empty cfgN7 [samplePaper "a" "Alpha"]
    ⟨"", [(samplePaper "a" "Alpha", 30)], [], some 0⟩ ?_ rfl
  norm_num [pick_weekly_reading, poolOf, get_unpicked_papers, ineligibleOf, gatedOf,
    eligB, is_eligible, isEligibleStr, ELIGIBLE_SOURCES, TOP5, TOP_FIELD, FIELD_JOURNALS,
    containsNBER, hasSub, isPre, samplePaper, cfgN7, belowOf, aboveOf, uniqueOf, rankedOf,
    scoredOf, sortDesc, insDesc, dedupTitles, dedupAux, belowThreshold, aboveThreshold,
    selectedOf, runnersOf, mark_as_picked, markOne, title_norm, trimChars, lower,
    scoreD, score_paper, venueTier, keyword_hits, wget, round2,
    store1Of, store2Of, store3Of, inelIds, belowIds, selIds]

/-- Counterexample to C8: a candidate whose `abstract` is NULL makes
`score_paper` raise (`title + " " + abstract` on `None`), and the whole
pass aborts with a `TypeError` instead of treating the field as empty —
one malformed record does abort the pass. -/
theorem C8_counterexample :
    score_paper pNullAbstract cfgN7 [] = none ∧
      (pick_weekly_reading cfgN7 [pNullAbstract]).2 = none := by
  constructor
  · rfl
  · decide

/-- C8 amended: a NULL `journal`, `title` or `abstract` on a candidate
raises and aborts the whole pass (no per-record recovery); only the
display-only fields (`authors`, `url`) may be NULL without affecting
scoring, and those never abort. -/
theorem C8_null_fields (p : Paper) (cfg : PicksCfg) (w : List (String × ℚ)) :
    (p.journal = none ∨ p.title = none ∨ p.abstract = none →
        score_paper p cfg w = none) ∧
      (∀ (s : List Paper), p ∈ poolOf s → p.journal = none →
        (pick_weekly_reading cfg s).2 = none) ∧
      (∀ (s : List Paper), (∀ q ∈ poolOf s, q.journal ≠ none) → p ∈ gatedOf s →
        p.title = none ∨ p.abstract = none →
        (pick_weekly_reading cfg s).2 = none) ∧
      (∀ (au u : Option String),
        score_paper { p with authors := au, url := u } cfg w = score_paper p cfg w) := by
  refine ⟨?_, ?_, ?_, ?_⟩
  · intro h
    cases hj : p.journal with
    | none => simp [score_paper, hj]
    | some j =>
      cases ht : p.title with
      | none => simp [score_paper, hj, ht]
      | some t =>
        cases ha : p.abstract with
        | none => simp [score_paper, hj, ht, ha]
        | some a =>
          rcases h with h | h | h
          · rw [hj] at h; cases h
          · rw [ht] at h; cases h
          · rw [ha] at h; cases h
  · intro s hp hj
    have hne : poolOf s ≠ [] := List.ne_nil_of_mem hp
    rw [pick_err_journal hne ⟨p, hp, hj⟩]
  · intro s hj hp hf
    have hppool : p ∈ poolOf s := (mem_gated.mp hp).1
    have hne : poolOf s ≠ [] := List.ne_nil_of_mem hppool
    have hgne : gatedOf s ≠ [] := List.ne_nil_of_mem hp
    rw [pick_err_fields hne hj hgne ⟨p, hp, hf⟩]
  · intro au u
    rfl

/-- Witness for the amended C8: a NULL-journal candidate aborts the pass. -/
theorem C8_null_fields_witness :
    (pick_weekly_reading cfgN7 [pNullJournal]).2 = none :=
  (C8_null_fields pNullJournal cfgN7 []).2.1 [pNullJournal] (by decide) rfl

theorem wget_nonneg {weights : List (String × ℚ)}
    (hw : ∀ w ∈ weights, 0 ≤ w.2) {k : String} {d : ℚ} (hd : 0 ≤ d) :
    0 ≤ wget weights k d := by
  unfold wget
  cases hfind : weights.find? (fun w => w.1 == k) with
  | none => exact hd
  | some w => exact hw w (List.mem_of_find?_eq_some hfind)

theorem venueTier_nonneg {weights : List (String × ℚ)}
    (hw : ∀ w ∈ weights, 0 ≤ w.2) (j : String) : 0 ≤ venueTier j weights := by
  unfold venueTier
  split_ifs <;> first
    | exact wget_nonneg hw (by norm_num)
    | exact le_refl 0

theorem round2_nonneg {q : ℚ} (h : 0 ≤ q) : 0 ≤ round2 q := by
  unfold round2
  have hx : (0 : ℚ) ≤ q * 100 := mul_nonneg h (by norm_num)
  have hf : (0 : ℤ) ≤ ⌊q * 100⌋ := Int.floor_nonneg.mpr hx
  simp only []
  split_ifs <;>
    (refine div_nonneg ?_ (by norm_num)) <;>
    exact_mod_cast (by omega : (0 : ℤ) ≤ _)

theorem ite_zero_nonneg (c : Prop) [Decidable c] (v : ℚ) (hv : 0 ≤ v) :
    0 ≤ if c then v else 0 := by
  split_ifs
  · exact hv
  · exact le_refl 0

theorem scoreD_nonneg (cfg : PicksCfg) (p : Paper)
    (hw : ∀ w ∈ cfg.weights, 0 ≤ w.2) : 0 ≤ scoreD cfg p := by
  unfold scoreD
  cases hj : p.journal with
  | none => simp [score_paper, hj]
  | some j =>
    cases ht : p.title with
    | none => simp [score_paper, hj, ht]
    | some t =>
      cases ha : p.abstract with
      | none => simp [score_paper, hj, ht, ha]
      | some a =>
        simp only [score_paper, hj, ht, ha, Option.getD_some]
        apply round2_nonneg
        have hpart : ∀ (key : String) (d : ℚ) (m k : Nat), 0 ≤ d → (0:ℚ) < k →
            0 ≤ wget cfg.weights key d * (m : ℚ) / (k : ℚ) := by
          intro key d m k hd hk
          exact div_nonneg (mul_nonneg (wget_nonneg hw hd) (Nat.cast_nonneg m))
            (le_of_lt hk)
        refine add_nonneg (add_nonneg (add_nonneg (add_nonneg (add_nonneg
          (venueTier_nonneg hw j) ?_) ?_) ?_) ?_) ?_
        · exact ite_zero_nonneg _ _ (hpart _ _ _ _ (by norm_num) (by norm_num))
        · exact ite_zero_nonneg _ _ (hpart _ _ _ _ (by norm_num) (by norm_num))
        · exact ite_zero_nonneg _ _ (hpart _ _ _ _ (by norm_num) (by norm_num))
        · exact ite_zero_nonneg _ _ (hpart _ _ _ _ (by norm_num) (by norm_num))
        · exact ite_zero_nonneg _ _ (wget_nonneg hw (by norm_num))

theorem eligB_journal_some {p : Paper} (h : eligB p = true) : p.journal ≠ none := by
  unfold eligB is_eligible at h
  cases hj : p.journal with
  | none => rw [hj] at h; cases h
  | some j => simp [hj]

/-- Scenario B, as the code actually behaves: a pool of exactly 10
unpicked, eligible, distinct-title papers with `N = 7`, `minScore = 0`
and non-negative weights yields 7 selected, 3 runners-up, and 3 (not 0)
papers remaining in the backlog. -/
theorem scenarioB (cfg : PicksCfg) (s : List Paper)
    (hs : (s.map (fun p => p.paper_id)).Nodup)
    (hlen : (get_unpicked_papers s).length = 10)
    (helig : ∀ p ∈ get_unpicked_papers s, eligB p = true)
    (hfields : ∀ p ∈ get_unpicked_papers s, p.title ≠ none ∧ p.abstract ≠ none)
    (htitles : ((get_unpicked_papers s).map title_norm).Nodup)
    (hnum : cfg.num_papers = 7) (hmin : cfg.min_score = 0)
    (hw : ∀ w ∈ cfg.weights, 0 ≤ w.2) :
    (pick_weekly_reading cfg s).2 =
      some ⟨"", selectedOf cfg s, runnersOf cfg s,
        some ((store3Of cfg s).filter (fun p => !p.picked)).length⟩ ∧
      (selectedOf cfg s).length = 7 ∧ (runnersOf cfg s).length = 3 ∧
      (get_unpicked_papers (store3Of cfg s)).length = 3 := by
  have hpoolL : (poolOf s).length = 10 := hlen
  have hpool : poolOf s ≠ [] := by
    intro h
    rw [h] at hpoolL
    cases hpoolL
  have hgate : gatedOf s = poolOf s := by
    unfold gatedOf
    exact List.filter_eq_self.mpr helig
  have hinel : ineligibleOf s = [] := by
    unfold ineligibleOf
    refine List.filter_eq_nil_iff.mpr ?_
    intro p hp
    simp [helig p hp]
  have hj : ∀ p ∈ poolOf s, p.journal ≠ none :=
    fun p hp => eligB_journal_some (helig p hp)
  have hgne : gatedOf s ≠ [] := by rw [hgate]; exact hpool
  have hf : ∀ p ∈ gatedOf s, p.title ≠ none ∧ p.abstract ≠ none := by
    rw [hgate]; exact hfields
  -- ranked list: same length and titles as the pool
  have hscoredL : (scoredOf cfg s).length = 10 := by
    unfold scoredOf
    rw [List.length_map, hgate]
    exact hpoolL
  have hrankedL : (rankedOf cfg s).length = 10 := by
    unfold rankedOf
    rw [sortDesc_length]
    exact hscoredL
  have htranked : ((rankedOf cfg s).map (fun sp => title_norm sp.1)).Nodup := by
    have hperm : List.Perm ((rankedOf cfg s).map (fun sp => title_norm sp.1))
        ((scoredOf cfg s).map (fun sp => title_norm sp.1)) :=
      (sortDesc_perm (scoredOf cfg s)).map _
    have heq : (scoredOf cfg s).map (fun sp => title_norm sp.1) =
        (poolOf s).map title_norm := by
      unfold scoredOf
      rw [List.map_map, hgate]
      rfl
    rw [heq] at hperm
    exact hperm.nodup_iff.mpr htitles
  have hunique : uniqueOf cfg s = rankedOf cfg s := by
    unfold uniqueOf dedupTitles
    exact dedupAux_eq_self htranked (by simp)
  have hscore : ∀ sp ∈ uniqueOf cfg s, 0 ≤ sp.2 := by
    intro sp hsp
    obtain ⟨_, hpair⟩ := mem_unique hsp
    rw [hpair]
    exact scoreD_nonneg cfg sp.1 hw
  have habove : aboveOf cfg s = uniqueOf cfg s := by
    unfold aboveOf aboveThreshold
    refine List.filter_eq_self.mpr ?_
    intro sp hsp
    rw [hmin]
    simpa using hscore sp hsp
  have hbelow : belowOf cfg s = [] := by
    unfold belowOf belowThreshold
    refine List.filter_eq_nil_iff.mpr ?_
    intro sp hsp
    rw [hmin]
    simpa using hscore sp hsp
  have haboveL : (aboveOf cfg s).length = 10 := by
    rw [habove, hunique]
    exact hrankedL
  have habne : aboveOf cfg s ≠ [] := by
    intro h
    rw [h] at haboveL
    cases haboveL
  have hselL : (selectedOf cfg s).length = 7 := by
    unfold selectedOf
    rw [List.length_take, hnum, haboveL]
    rfl
  have hrunL : (runnersOf cfg s).length = 3 := by
    unfold runnersOf
    rw [List.length_take, List.length_drop, hnum, haboveL]
    rfl
  have hcons := conservation cfg s hs
  rw [hinel, hbelow, hselL] at hcons
  simp only [List.length_nil] at hcons
  have hrem : (get_unpicked_papers (store3Of cfg s)).length = 3 := by omega
  refine ⟨?_, hselL, hrunL, hrem⟩
  rw [pick_success hpool hj hgne hf habne]

/-- Counterexample to C4: on the concrete Scenario-B pool the reported
remaining backlog is 3 (the three runners-up stay unpicked), not 0. -/
theorem C4_counterexample :
    ((pick_weekly_reading cfg70 tenStore).2.map (fun r => r.remaining)) ≠
      some (some 0) := by
  obtain ⟨hpick, _, _, hrem⟩ := scenarioB cfg70 tenStore (by decide) (by decide)
    (by decide) (by decide) (by decide) rfl rfl (by simp [cfg70])
  rw [hpick]
  have hr3 : ((store3Of cfg70 tenStore).filter (fun p => !p.picked)).length = 3 := hrem
  simp [hr3]

/-- C4 amended: for a pool of exactly 10 unpicked eligible distinct-title
papers with N = 7, minScore = 0 and non-negative weights, the pass
selects exactly 7, reports exactly 3 runners-up, and reports a remaining
backlog of 3 (the runners-up are not marked picked). -/
theorem C4_scenarioB (cfg : PicksCfg) (s : List Paper)
    (hs : (s.map (fun p => p.paper_id)).Nodup)
    (hlen : (get_unpicked_papers s).length = 10)
    (helig : ∀ p ∈ get_unpicked_papers s, eligB p = true)
    (hfields : ∀ p ∈ get_unpicked_papers s, p.title ≠ none ∧ p.abstract ≠ none)
    (htitles : ((get_unpicked_papers s).map title_norm).Nodup)
    (hnum : cfg.num_papers = 7) (hmin : cfg.min_score = 0)
    (hw : ∀ w ∈ cfg.weights, 0 ≤ w.2) :
    ∃ res : PickResult, (pick_weekly_reading cfg s).2 = some res ∧
      res.selected.length = 7 ∧ res.runners.length = 3 ∧ res.remaining = some 3 := by
  obtain ⟨hpick, hsel, hrun, hrem⟩ :=
    scenarioB cfg s hs hlen helig hfields htitles hnum hmin hw
  refine ⟨_, hpick, hsel, hrun, ?_⟩
  simpa using hrem

/-- Witness for the amended C4 at the concrete ten-paper pool. -/
theorem C4_scenarioB_witness :
    ∃ res : PickResult, (pick_weekly_reading cfg70 tenStore).2 = some res ∧
      res.selected.length = 7 ∧ res.runners.length = 3 ∧ res.remaining = some 3 :=
  C4_scenarioB cfg70 tenStore (by decide) (by decide) (by decide) (by decide)
    (by decide) rfl rfl (by simp [cfg70])

theorem mark_frame (s : List Paper) (L : List String) :
    List.Forall₂ (fun p q => q.picked = true → p.picked = true ∨ p.paper_id ∈ L)
      s (mark_as_picked s L) := by
  unfold mark_as_picked
  induction s with
  | nil => exact List.Forall₂.nil
  | cons p t ih =>
    exact List.Forall₂.cons (fun h => (markOne_picked_iff L p).mp h) ih

theorem above_ids_nodup {cfg : PicksCfg} {s : List Paper}
    (hs : (s.map (fun p => p.paper_id)).Nodup) :
    ((aboveOf cfg s).map (fun sp => sp.1.paper_id)).Nodup :=
  ((above_sublist_unique cfg s).map _).nodup (unique_ids_nodup hs)

theorem above_id_not_below {cfg : PicksCfg} {s : List Paper}
    (hs : (s.map (fun p => p.paper_id)).Nodup)
    {sp : Paper × ℚ} (hsp : sp ∈ aboveOf cfg s) :
    sp.1.paper_id ∉ belowIds cfg s := by
  intro hb
  rcases List.mem_map.mp hb with ⟨tq, htq, htqid⟩
  have hspA := mem_above.mp hsp
  have htqB := mem_below.mp htq
  have heq : sp = tq :=
    unique_id_determines hs hspA.1 htqB.1 (by rw [htqid])
  have hge := hspA.2
  rw [heq] at hge
  exact absurd htqB.2 (not_lt.mpr hge)

theorem sel_runners_disjoint {cfg : PicksCfg} {s : List Paper}
    (hs : (s.map (fun p => p.paper_id)).Nodup)
    {sp : Paper × ℚ} (h1 : sp ∈ selectedOf cfg s) (h2 : sp ∈ runnersOf cfg s) :
    False := by
  have hnd : (aboveOf cfg s).Nodup := (above_ids_nodup hs).of_map
  rw [← List.take_append_drop cfg.num_papers (aboveOf cfg s)] at hnd
  rcases List.nodup_append.mp hnd with ⟨_, _, hdisj⟩
  have hdrop : sp ∈ (aboveOf cfg s).drop cfg.num_papers :=
    (List.take_sublist 7 _).mem h2
  exact hdisj h1 hdrop

theorem runner_id_not_sel {cfg : PicksCfg} {s : List Paper}
    (hs : (s.map (fun p => p.paper_id)).Nodup)
    {sp : Paper × ℚ} (hsp : sp ∈ runnersOf cfg s) :
    sp.1.paper_id ∉ selIds cfg s := by
  intro hb
  rcases List.mem_map.mp hb with ⟨tq, htq, htqid⟩
  have hspU : sp ∈ uniqueOf cfg s :=
    (above_sublist_unique cfg s).mem ((runners_sublist_above cfg s).mem hsp)
  have htqU : tq ∈ uniqueOf cfg s :=
    (above_sublist_unique cfg s).mem ((sel_sublist_above cfg s).mem htq)
  have heq : tq = sp := unique_id_determines hs htqU hspU htqid
  exact sel_runners_disjoint hs (heq ▸ htq) hsp

theorem unpicked_in_final {cfg : PicksCfg} {s : List Paper} {p : Paper}
    (hp : p ∈ poolOf s)
    (h1 : p.paper_id ∉ inelIds s) (h2 : p.paper_id ∉ belowIds cfg s)
    (h3 : p.paper_id ∉ selIds cfg s) :
    p ∈ get_unpicked_papers (pick_weekly_reading cfg s).1 := by
  obtain ⟨L, hL, hsub⟩ := pick_fst_mark cfg s
  rw [hL, unpicked_mark, List.mem_filter]
  refine ⟨hp, ?_⟩
  simp only [Bool.not_eq_true', decide_eq_false_iff_not]
  intro hmem
  rcases List.mem_append.mp (hsub _ hmem) with h | h
  · rcases List.mem_append.mp h with h | h
    · exact h1 h
    · exact h2 h
  · exact h3 h

theorem ranked_dropped_id {cfg : PicksCfg} {s : List Paper}
    (hs : (s.map (fun p => p.paper_id)).Nodup)
    {sp : Paper × ℚ} (hr : sp ∈ rankedOf cfg s) (hn : sp ∉ uniqueOf cfg s) :
    sp.1.paper_id ∉ belowIds cfg s ∧ sp.1.paper_id ∉ selIds cfg s := by
  have hsc := mem_scored (mem_ranked.mp hr)
  have key : ∀ tq ∈ uniqueOf cfg s, tq.1.paper_id = sp.1.paper_id → False := by
    intro tq htq hid
    have h1 : tq.1 = sp.1 :=
      pool_id_inj hs (mem_gated.mp (mem_unique htq).1).1 (mem_gated.mp hsc.1).1 hid
    have h2 : tq = sp := by
      rw [(mem_unique htq).2, h1, ← hsc.2]
    exact hn (h2 ▸ htq)
  constructor
  · intro hb
    rcases List.mem_map.mp hb with ⟨tq, htq, htqid⟩
    exact key tq ((below_sublist_unique cfg s).mem htq) htqid
  · intro hb
    rcases List.mem_map.mp hb with ⟨tq, htq, htqid⟩
    exact key tq
      ((above_sublist_unique cfg s).mem ((sel_sublist_above cfg s).mem htq)) htqid

/-- C10: a pass only ever flips ineligible, below-threshold and selected
papers to picked; runners-up and title-duplicates removed by dedup stay
unpicked in the returned store; and on a concrete duplicated-title pool
the lower-scoring duplicate is selected by the following run. -/
theorem C10_frame_effect (cfg : PicksCfg) (s : List Paper)
    (hs : (s.map (fun p => p.paper_id)).Nodup) :
    List.Forall₂ (fun p q => q.picked = true → p.picked = true ∨
        p.paper_id ∈ inelIds s ++ belowIds cfg s ++ selIds cfg s)
      s (pick_weekly_reading cfg s).1 ∧
      (∀ sp ∈ runnersOf cfg s,
        sp.1 ∈ get_unpicked_papers (pick_weekly_reading cfg s).1) ∧
      (∀ sp ∈ rankedOf cfg s, sp ∉ uniqueOf cfg s →
        sp.1 ∈ get_unpicked_papers (pick_weekly_reading cfg s).1) ∧
      ((pick_weekly_reading cfgN1 (pick_weekly_reading cfgN1 [dupHi, dupLo]).1).2.map
        (fun r => r.selected.map (fun sp => sp.1.paper_id))) = some ["b"] := by
  refine ⟨?_, ?_, ?_, ?_⟩
  · obtain ⟨L, hL, hsub⟩ := pick_fst_mark cfg s
    rw [hL]
    refine (mark_frame s L).imp ?_
    intro p q hpq hq
    rcases hpq hq with h | h
    · exact Or.inl h
    · exact Or.inr (hsub _ h)
  · intro sp hsp
    have hU : sp ∈ uniqueOf cfg s :=
      (above_sublist_unique cfg s).mem ((runners_sublist_above cfg s).mem hsp)
    have hgat := (mem_unique hU).1
    refine unpicked_in_final (mem_gated.mp hgat).1 (gated_id_not_inel hs hgat) ?_ ?_
    · exact above_id_not_below hs ((runners_sublist_above cfg s).mem hsp)
    · exact runner_id_not_sel hs hsp
  · intro sp hr hn
    have hsc := mem_scored (mem_ranked.mp hr)
    obtain ⟨h2, h3⟩ := ranked_dropped_id hs hr hn
    exact unpicked_in_final (mem_gated.mp hsc.1).1 (gated_id_not_inel hs hsc.1) h2 h3
  · have hba : (("b" : String) = "a") = False := by decide
    have hab : (("a" : String) = "b") = False := by decide
    norm_num [hba, hab, pick_weekly_reading, poolOf, get_unpicked_papers, ineligibleOf,
      gatedOf, eligB, is_eligible, isEligibleStr, ELIGIBLE_SOURCES, TOP5, TOP_FIELD,
      FIELD_JOURNALS, containsNBER, hasSub, isPre, dupHi, dupLo, cfgN1, belowOf, aboveOf,
      uniqueOf, rankedOf, scoredOf, sortDesc, insDesc, dedupTitles, dedupAux,
      belowThreshold, aboveThreshold, selectedOf, runnersOf, mark_as_picked, markOne,
      title_norm, trimChars, lower, scoreD, score_paper, venueTier, keyword_hits, wget,
      round2, store1Of, store2Of, store3Of, inelIds, belowIds, selIds]

/-- Witness for C10 at the concrete duplicated-title store. -/
theorem C10_frame_effect_witness :
    List.Forall₂ (fun p q => q.picked = true → p.picked = true ∨
        p.paper_id ∈ inelIds [dupHi, dupLo] ++ belowIds cfgN1 [dupHi, dupLo] ++
          selIds cfgN1 [dupHi, dupLo])
      [dupHi, dupLo] (pick_weekly_reading cfgN1 [dupHi, dupLo]).1 ∧
      (∀ sp ∈ runnersOf cfgN1 [dupHi, dupLo],
        sp.1 ∈ get_unpicked_papers (pick_weekly_reading cfgN1 [dupHi, dupLo]).1) ∧
      (∀ sp ∈ rankedOf cfgN1 [dupHi, dupLo], sp ∉ uniqueOf cfgN1 [dupHi, dupLo] →
        sp.1 ∈ get_unpicked_papers (pick_weekly_reading cfgN1 [dupHi, dupLo]).1) ∧
      ((pick_weekly_reading cfgN1 (pick_weekly_reading cfgN1 [dupHi, dupLo]).1).2.map
        (fun r => r.selected.map (fun sp => sp.1.paper_id))) = some ["b"] :=
  C10_frame_effect cfgN1 [dupHi, dupLo] (by decide)

end WeeklyPicks
